import Mathlib

/-!
# Expense tracker: currency conversion and exchange-rate refresh

Shallow embedding of `expense-tracker/js/currency.js` (class `CurrencyManager`).

Modelling conventions

* JavaScript numbers are modelled by exact rationals `ℚ`; `NaN`, the infinities and
  binary rounding of intermediate products are outside the model.
* A rate table (a plain JS object from currency code to number) is an association list
  `List (String × ℚ)` in property order; `Object.keys(t).length === 0` is `t = []`.
  Currency codes are own-property keys (names inherited from `Object.prototype` are not
  currency codes).
* `Date` values are integers: milliseconds since the epoch.
* A method that mutates `this` returns the manager after the call next to its result.
-/

namespace CurrencyManager

/-- Rate table `this.exchangeRates`: currency code to rate relative to the base currency. -/
abbrev Rates := List (String × ℚ)

end CurrencyManager

/-- State of a `CurrencyManager` instance together with the two `localStorage` keys it
writes and the setting `tracker.settings.baseCurrency` it reads. -/
structure CurrencyManager where
  /-- Setting `this.tracker.settings.baseCurrency`. -/
  baseCurrency : String
  /-- Field `this.exchangeRates`. -/
  exchangeRates : CurrencyManager.Rates
  /-- Field `this.lastUpdate` (`none` is `null`). -/
  lastUpdate : Option Int
  /-- Entry `localStorage['exchangeRates']`. -/
  cachedRates : Option CurrencyManager.Rates
  /-- Entry `localStorage['ratesLastUpdate']`. -/
  cachedLastUpdate : Option Int
  deriving DecidableEq

namespace CurrencyManager

/-- Outcome of `await fetch(url)` followed by `await response.json()`. -/
inductive FetchResult where
  /-- The request rejects or the body is not JSON: an exception reaches the `catch`. -/
  | failed
  /-- A JSON body arrived; `rates` is `data.rates` (`none` when it is missing). -/
  | json (rates : Option Rates)
  deriving DecidableEq

/-- Property assignment `t[k] = v` on a JS object: overwrite in place, else append. -/
def setRate : Rates → String → ℚ → Rates
  | [], k, v => [(k, v)]
  | (k0, v0) :: rest, k, v =>
    if k0 = k then (k, v) :: rest else (k0, v0) :: setRate rest k v

/-- The literal `fallbackRates` of `useFallbackRates`, indexed by base currency. -/
def fallbackRates : String → Option Rates
  | "USD" => some [("EUR", 0.85), ("GBP", 0.73), ("THB", 33.5), ("JPY", 110),
      ("CAD", 1.25), ("AUD", 1.35), ("CHF", 0.92)]
  | "EUR" => some [("USD", 1.18), ("GBP", 0.86), ("THB", 39.4), ("JPY", 129.5),
      ("CAD", 1.47), ("AUD", 1.59), ("CHF", 1.08)]
  | "GBP" => some [("USD", 1.37), ("EUR", 1.16), ("THB", 45.9), ("JPY", 150.8),
      ("CAD", 1.71), ("AUD", 1.85), ("CHF", 1.26)]
  | "THB" => some [("USD", 0.030), ("EUR", 0.025), ("GBP", 0.022), ("JPY", 3.28),
      ("CAD", 0.037), ("AUD", 0.040), ("CHF", 0.027)]
  | "JPY" => some [("USD", 0.0091), ("EUR", 0.0077), ("GBP", 0.0066), ("THB", 0.30),
      ("CAD", 0.011), ("AUD", 0.012), ("CHF", 0.0084)]
  | "CAD" => some [("USD", 0.80), ("EUR", 0.68), ("GBP", 0.58), ("THB", 26.8),
      ("JPY", 88), ("AUD", 1.08), ("CHF", 0.74)]
  | "AUD" => some [("USD", 0.74), ("EUR", 0.63), ("GBP", 0.54), ("THB", 24.8),
      ("JPY", 81.5), ("CAD", 0.93), ("CHF", 0.68)]
  | "CHF" => some [("USD", 1.09), ("EUR", 0.93), ("GBP", 0.79), ("THB", 36.5),
      ("JPY", 119.6), ("CAD", 1.36), ("AUD", 1.47)]
  | _ => none

/-- Method `useFallbackRates`: when the base currency has a row in `fallbackRates`, the
table becomes a copy of that row with the base currency's own rate set to 1. -/
def useFallbackRates (m : CurrencyManager) : CurrencyManager :=
  match fallbackRates m.baseCurrency with
  | some row => { m with exchangeRates := setRate row m.baseCurrency 1 }
  | none => m

/-- Expression `this.exchangeRates[c] || 1`: a missing or zero entry reads as 1. -/
def rateOrOne (t : Rates) (c : String) : ℚ :=
  match t.lookup c with
  | some r => if r = 0 then 1 else r
  | none => 1

/-- Function `Math.round`: nearest integer, ties towards positive infinity. -/
def mathRound (x : ℚ) : ℤ := ⌊x + 1 / 2⌋

/-- Method `convertCurrency(amount, fromCurrency, toCurrency)`: the returned number and
the manager after the call. -/
def convertCurrency (m : CurrencyManager) (amount : ℚ) (fromCurrency toCurrency : String) :
    ℚ × CurrencyManager :=
  if fromCurrency = toCurrency then (amount, m)
  else
    let m1 := if m.exchangeRates = [] then useFallbackRates m else m
    let baseCurrency := m1.baseCurrency
    let convertedAmount : ℚ :=
      if fromCurrency = baseCurrency then
        let rate := rateOrOne m1.exchangeRates toCurrency
        amount * rate
      else if toCurrency = baseCurrency then
        let rate := rateOrOne m1.exchangeRates fromCurrency
        amount / rate
      else
        let fromRate := rateOrOne m1.exchangeRates fromCurrency
        let toRate := rateOrOne m1.exchangeRates toCurrency
        let baseAmount := amount / fromRate
        baseAmount * toRate
    ((mathRound (convertedAmount * 100) : ℚ) / 100, m1)

/-- Method `getExchangeRate(fromCurrency, toCurrency)`. -/
def getExchangeRate (m : CurrencyManager) (fromCurrency toCurrency : String) : ℚ :=
  if fromCurrency = toCurrency then 1
  else
    let baseCurrency := m.baseCurrency
    if fromCurrency = baseCurrency then rateOrOne m.exchangeRates toCurrency
    else if toCurrency = baseCurrency then 1 / rateOrOne m.exchangeRates fromCurrency
    else
      let fromRate := rateOrOne m.exchangeRates fromCurrency
      let toRate := rateOrOne m.exchangeRates toCurrency
      toRate / fromRate

/-- Field `baseUrl` of the constructor. -/
def baseUrl : String := "https://api.exchangerate-api.com/v4/latest/"

/-- Method `updateExchangeRates`. `now` is the clock at entry, `fetch` answers a request
for a URL, `now2` is the clock when the answer is stored. Returns the manager after the
call and the list of URLs requested. Writes to `localStorage` are taken to succeed. -/
def updateExchangeRates (m : CurrencyManager) (now : Int) (fetch : String → FetchResult)
    (now2 : Int) : CurrencyManager × List String :=
  let oneDayAgo := now - 24 * 60 * 60 * 1000
  let fresh : Bool :=
    match m.lastUpdate with
    | some t => decide (t > oneDayAgo)
    | none => false
  if fresh then (m, [])
  else
    let url := baseUrl ++ m.baseCurrency
    match fetch url with
    | FetchResult.json (some rates) =>
      ({ m with exchangeRates := rates, lastUpdate := some now2,
                cachedRates := some rates, cachedLastUpdate := some now2 }, [url])
    | FetchResult.json none => (m, [url])
    | FetchResult.failed => (useFallbackRates m, [url])

/-- Method `forceUpdateRates`: clear `lastUpdate`, then `updateExchangeRates`. -/
def forceUpdateRates (m : CurrencyManager) (now : Int) (fetch : String → FetchResult)
    (now2 : Int) : CurrencyManager × List String :=
  updateExchangeRates { m with lastUpdate := none } now fetch now2

/-- The round trip `convert(convert(a, X, Y), Y, X)`: the second call runs on the manager
the first call leaves behind. -/
def roundTrip (m : CurrencyManager) (a : ℚ) (X Y : String) : ℚ :=
  let there := convertCurrency m a X Y
  (convertCurrency there.2 there.1 Y X).1

/-- A manager as the constructor leaves it for base `b` with table `t` and an empty cache. -/
def ofTable (b : String) (t : Rates) : CurrencyManager :=
  { baseCurrency := b, exchangeRates := t, lastUpdate := none,
    cachedRates := none, cachedLastUpdate := none }

end CurrencyManager

/-!
# Calendar and todo planner

Shallow embedding of `calender/js/app.js` (class `CalendarApp`), `calender/js/todo.js`
(class `TodoManager`) and `calender/js/calendar.js` (class `CalendarManager`).

Modelling conventions

* Calendar arithmetic follows the ECMAScript definitions `DayFromYear`, `MakeDay`,
  `YearFromTime`, `MonthFromTime`, `DateFromTime` and `WeekDay` on day numbers (days since
  1970-01-01, proleptic Gregorian calendar). The two-digit-year rule of the `Date`
  constructor (years 0 to 99) and the finite range of time values are outside the model.
* A `Date` is its time value: integer milliseconds since the epoch, UTC. The host time zone
  is an explicit parameter giving the local offset at a UTC instant and at a local time.
* A date string `YYYY-MM-DD` is the day number of the calendar date it denotes; the date
  control of the todo form yields either the empty string or such a date.
* `generateId()` and `new Date().toISOString()` are inputs (`Fresh`).
* DOM rendering is left out; `showNotification` appends to a log. Writes to `localStorage`
  are taken to succeed.
-/

namespace JsDate

/-- Constant `msPerDay`. -/
def msPerDay : Int := 86400000

/-- ECMAScript `DayFromYear(y)`: day number of 1 January of year `y`. -/
def dayFromYear (y : Int) : Int :=
  365 * (y - 1970) + (y - 1969) / 4 - (y - 1901) / 100 + (y - 1601) / 400

/-- ECMAScript `InLeapYear`, on the year. -/
def inLeapYear (y : Int) : Bool :=
  decide (y % 4 = 0) && (decide (y % 100 ≠ 0) || decide (y % 400 = 0))

/-- Number of days of a year that precede month `m` (0 = January). -/
def monthStart (leap : Bool) (m : Int) : Int :=
  let l : Int := if leap then 1 else 0
  if m ≤ 0 then 0
  else if m = 1 then 31
  else if m = 2 then 59 + l
  else if m = 3 then 90 + l
  else if m = 4 then 120 + l
  else if m = 5 then 151 + l
  else if m = 6 then 181 + l
  else if m = 7 then 212 + l
  else if m = 8 then 243 + l
  else if m = 9 then 273 + l
  else if m = 10 then 304 + l
  else if m = 11 then 334 + l
  else 365 + l

/-- ECMAScript `MakeDay(year, month, date)`: months outside 0..11 carry into the year and
the date counts on from the first of the month, whatever its sign or size. -/
def makeDay (year month date : Int) : Int :=
  let ym := year + month / 12
  let mn := month % 12
  dayFromYear ym + monthStart (inLeapYear ym) mn + date - 1

/-- ECMAScript `YearFromTime`, on the day number: the year `y` with
`dayFromYear y ≤ n < dayFromYear (y + 1)`. -/
def yearFromDay (n : Int) : Int :=
  let e := 1970 + n * 400 / 146097
  if dayFromYear (e + 1) ≤ n then e + 1
  else if dayFromYear e ≤ n then e
  else e - 1

/-- Month (0 = January) that holds day `d` of a year, counted from 0: the case table of
ECMAScript `MonthFromTime` on `DayWithinYear`. -/
def monthOfYearDay (leap : Bool) (d : Int) : Int :=
  let l : Int := if leap then 1 else 0
  if d < 31 then 0
  else if d < 59 + l then 1
  else if d < 90 + l then 2
  else if d < 120 + l then 3
  else if d < 151 + l then 4
  else if d < 181 + l then 5
  else if d < 212 + l then 6
  else if d < 243 + l then 7
  else if d < 273 + l then 8
  else if d < 304 + l then 9
  else if d < 334 + l then 10
  else 11

/-- ECMAScript `MonthFromTime`, on the day number (0 = January). -/
def monthFromDay (n : Int) : Int :=
  monthOfYearDay (inLeapYear (yearFromDay n)) (n - dayFromYear (yearFromDay n))

/-- ECMAScript `DateFromTime`, on the day number (1-based day of the month). -/
def dateFromDay (n : Int) : Int :=
  let y := yearFromDay n
  n - dayFromYear y - monthStart (inLeapYear y) (monthFromDay n) + 1

/-- ECMAScript `WeekDay`, on the day number (0 = Sunday; 1970-01-01 was a Thursday). -/
def weekDay (n : Int) : Int := (n + 4) % 7

/-- Length of month `month` (0 = January) of `year` in the Gregorian calendar. -/
def daysInMonth (year month : Int) : Int :=
  if month = 1 then (if inLeapYear year then 29 else 28)
  else if month = 3 ∨ month = 5 ∨ month = 8 ∨ month = 10 then 30
  else 31

/-- The date string `YYYY-MM-DD` with year `y`, month `m` (1 = January) and day `d`. -/
def isoDate (y m d : Int) : Int := makeDay y (m - 1) d

/-- Host time zone: ECMAScript `LocalTZA(t, true)` and `LocalTZA(t, false)`. -/
structure TimeZone where
  /-- Offset in milliseconds in force at the UTC instant `t`. -/
  offsetAtUtc : Int → Int
  /-- Offset in milliseconds applied to the local time value `t`. -/
  offsetAtLocal : Int → Int

/-- A zone whose offset from UTC never changes. -/
def TimeZone.fixed (off : Int) : TimeZone :=
  { offsetAtUtc := fun _ => off, offsetAtLocal := fun _ => off }

/-- US Eastern time between November 2023 and November 2024: UTC-5 until
2024-03-10 07:00 UTC (02:00 local), UTC-4 afterwards. -/
def usEastern2024 : TimeZone :=
  { offsetAtUtc := fun t => if t < 1710054000000 then -18000000 else -14400000,
    offsetAtLocal := fun t => if t < 1710039600000 then -18000000 else -14400000 }

/-- ECMAScript `Day(t)`. -/
def day (t : Int) : Int := t / msPerDay

/-- ECMAScript `TimeWithinDay(t)`. -/
def timeWithinDay (t : Int) : Int := t % msPerDay

/-- ECMAScript `LocalTime(t)`. -/
def localTime (tz : TimeZone) (t : Int) : Int := t + tz.offsetAtUtc t

/-- ECMAScript `UTC(t)`. -/
def utc (tz : TimeZone) (t : Int) : Int := t - tz.offsetAtLocal t

/-- Constructor `new Date("YYYY-MM-DD")`: a date-only string is midnight UTC of that day. -/
def parseIsoDate (d : Int) : Int := d * msPerDay

/-- Method `getDate()`: day of the month in local time. -/
def getDate (tz : TimeZone) (t : Int) : Int := dateFromDay (day (localTime tz t))

/-- Method `setDate(dt)`: replace the local day of the month, keep the local time of
day. -/
def setDate (tz : TimeZone) (t : Int) (dt : Int) : Int :=
  let tl := localTime tz t
  let newDay := makeDay (yearFromDay (day tl)) (monthFromDay (day tl)) dt
  utc tz (newDay * msPerDay + timeWithinDay tl)

/-- Call `setHours(0, 0, 0, 0)`: local midnight of the local day. -/
def setHoursZero (tz : TimeZone) (t : Int) : Int :=
  utc tz (day (localTime tz t) * msPerDay)

/-- Expression `date.toISOString().split('T')[0]`: the UTC calendar date. -/
def toISODate (t : Int) : Int := day t

end JsDate

namespace Calender

open JsDate

/-- A todo record. -/
structure Todo where
  id : String
  title : String
  description : String
  /-- Date string `YYYY-MM-DD`, as a day number. -/
  date : Int
  time : String
  priority : String
  category : String
  recurring : Bool
  completed : Bool
  /-- Field `parentId`; `none` when the record has no such field. -/
  parentId : Option String
  createdAt : String
  updatedAt : String
  deriving DecidableEq

/-- Object returned by `getFormData`; `date = none` is the empty string. -/
structure FormData where
  title : String
  description : String
  date : Option Int
  time : String
  priority : String
  category : String
  recurring : Bool
  deriving DecidableEq

/-- Form data that passed validation: the date is present. -/
structure TodoData where
  title : String
  description : String
  date : Int
  time : String
  priority : String
  category : String
  recurring : Bool
  deriving DecidableEq

/-- Values a new record draws from the environment: `generateId()` and the two
`new Date().toISOString()` stamps. -/
structure Fresh where
  id : String
  createdAt : String
  updatedAt : String
  deriving DecidableEq

/-- State of `CalendarApp` that the todo operations read and write. -/
structure CalendarApp where
  /-- Field `this.todos`. -/
  todos : List Todo
  /-- Field `this.filteredTodos`. -/
  filteredTodos : List Todo
  /-- Field `this.currentEditingTodo` (`none` is `null` or `undefined`). -/
  currentEditingTodo : Option Todo
  /-- Entry `localStorage['calender_todos']`, as the list that was serialised. -/
  stored : Option (List Todo)
  /-- Calls of `showNotification(message, type)`, oldest first. -/
  notifications : List (String × String)
  deriving DecidableEq

namespace CalendarApp

/-- State the constructor sets up before `init`. -/
def empty : CalendarApp :=
  { todos := [], filteredTodos := [], currentEditingTodo := none, stored := none,
    notifications := [] }

/-- Method `showNotification(message, type)`. -/
def showNotification (app : CalendarApp) (message type : String) : CalendarApp :=
  { app with notifications := app.notifications ++ [(message, type)] }

/-- Method `saveTodos`. -/
def saveTodos (app : CalendarApp) : CalendarApp :=
  { app with stored := some app.todos }

/-- Method `closeTodoModal`, with the modal element present. -/
def closeTodoModal (app : CalendarApp) : CalendarApp :=
  { app with currentEditingTodo := none }

/-- Method `formatDateForStorage(date)`. -/
def formatDateForStorage (t : Int) : Int := toISODate t

/-- A JSON value. -/
inductive Json where
  | null
  | bool (b : Bool)
  | num (n : ℚ)
  | str (s : String)
  | arr (items : List Json)
  | obj (fields : List (String × Json))

/-- What `localStorage.getItem('calender_todos')` returns, with what `JSON.parse` makes of
a non-empty string. -/
inductive StoredItem where
  /-- No entry: `getItem` returns `null`. -/
  | absent
  /-- The empty string. -/
  | emptyText
  /-- A non-empty string; `parsed = none` when `JSON.parse` throws. -/
  | text (parsed : Option Json)

/-- Array spread `[...v]`: an array yields its items, a string its characters, any other
JSON value is not iterable and throws. -/
def spread : Json → Except String (List Json)
  | Json.arr items => Except.ok items
  | Json.str s => Except.ok (s.toList.map fun c => Json.str (String.singleton c))
  | _ => Except.error "TypeError: not iterable"

/-- Method `loadTodos`: the values of `this.todos` and `this.filteredTodos` afterwards. -/
def loadTodos (stored : StoredItem) : Json × Json :=
  let parsed : Except String Json :=
    match stored with
    | StoredItem.absent => Except.ok (Json.arr [])
    | StoredItem.emptyText => Except.ok (Json.arr [])
    | StoredItem.text none => Except.error "SyntaxError"
    | StoredItem.text (some v) => Except.ok v
  match parsed with
  | Except.error _ => (Json.arr [], Json.arr [])
  | Except.ok todos =>
    match spread todos with
    | Except.error _ => (Json.arr [], Json.arr [])
    | Except.ok items => (todos, Json.arr items)

end CalendarApp

namespace TodoManager

open CalendarApp

/-- The object `recurringTodo` built in iteration `i` of `createRecurringTodos`. -/
def recurringTodo (tz : TimeZone) (fresh : Nat → Fresh) (originalTodo : Todo) (i : Nat) :
    Todo :=
  let baseDate := parseIsoDate originalTodo.date
  let newDate := setDate tz baseDate (getDate tz baseDate + 7 * (i : Int))
  { originalTodo with
    id := (fresh i).id,
    date := formatDateForStorage newDate,
    recurring := false,
    parentId := some originalTodo.id,
    createdAt := (fresh i).createdAt,
    updatedAt := (fresh i).updatedAt }

/-- Method `createRecurringTodos(originalTodo)`. -/
def createRecurringTodos (tz : TimeZone) (fresh : Nat → Fresh) (app : CalendarApp)
    (originalTodo : Todo) : CalendarApp :=
  let recurringCount := 10
  let pushed := (List.range' 1 recurringCount).foldl
    (fun (a : CalendarApp) (i : Nat) =>
      { a with
        todos := a.todos ++ [recurringTodo tz fresh originalTodo i],
        filteredTodos := a.filteredTodos ++ [recurringTodo tz fresh originalTodo i] })
    app
  saveTodos pushed

/-- Method `createTodo(todoData)`. -/
def createTodo (tz : TimeZone) (fresh : Nat → Fresh) (app : CalendarApp)
    (todoData : TodoData) : CalendarApp :=
  let todo : Todo :=
    { id := (fresh 0).id,
      title := todoData.title,
      description := todoData.description,
      date := todoData.date,
      time := todoData.time,
      priority := todoData.priority,
      category := todoData.category,
      recurring := todoData.recurring,
      completed := false,
      parentId := none,
      createdAt := (fresh 0).createdAt,
      updatedAt := (fresh 0).updatedAt }
  let app1 := saveTodos
    { app with todos := app.todos ++ [todo], filteredTodos := app.filteredTodos ++ [todo] }
  if todo.recurring then createRecurringTodos tz fresh app1 todo else app1

/-- Method `updateTodo(todoId, todoData)`; `stamp` is `new Date().toISOString()`. -/
def updateTodo (stamp : String) (app : CalendarApp) (todoId : String)
    (todoData : TodoData) : CalendarApp :=
  match app.todos.findIdx? (fun t => t.id = todoId) with
  | none => app
  | some todoIndex =>
    match app.todos.get? todoIndex with
    | none => app
    | some old =>
      let updated : Todo :=
        { old with
          title := todoData.title,
          description := todoData.description,
          date := todoData.date,
          time := todoData.time,
          priority := todoData.priority,
          category := todoData.category,
          recurring := todoData.recurring,
          updatedAt := stamp }
      let todos := app.todos.set todoIndex updated
      let filteredTodos :=
        match app.filteredTodos.findIdx? (fun t => t.id = todoId) with
        | none => app.filteredTodos
        | some filteredIndex => app.filteredTodos.set filteredIndex updated
      saveTodos { app with todos := todos, filteredTodos := filteredTodos }

/-- Method `validateTodoData(data)`: the returned flag and the app after the
notification; `now` is the clock read by `new Date()`. -/
def validateTodoData (tz : TimeZone) (now : Int) (app : CalendarApp) (data : FormData) :
    Bool × CalendarApp :=
  if data.title = "" then
    (false, showNotification app "Please enter a title for your todo" "error")
  else
    match data.date with
    | none => (false, showNotification app "Please select a date for your todo" "error")
    | some d =>
      let selectedDate := setHoursZero tz (parseIsoDate d)
      let today := setHoursZero tz now
      if selectedDate < today ∧ app.currentEditingTodo = none then
        (false, showNotification app "Please select a future date" "error")
      else (true, app)

/-- Method `saveTodo`, on the form data `getFormData` returned. -/
def saveTodo (tz : TimeZone) (now : Int) (fresh : Nat → Fresh) (app : CalendarApp)
    (formData : FormData) : CalendarApp :=
  let checked := validateTodoData tz now app formData
  if checked.1 = false then checked.2
  else
    match formData.date with
    | none => checked.2
    | some d =>
      let todoData : TodoData :=
        { title := formData.title, description := formData.description, date := d,
          time := formData.time, priority := formData.priority,
          category := formData.category, recurring := formData.recurring }
      let saved :=
        match app.currentEditingTodo with
        | some editing => updateTodo (fresh 0).updatedAt app editing.id todoData
        | none => createTodo tz fresh app todoData
      let closed := closeTodoModal saved
      showNotification closed
        (if closed.currentEditingTodo.isSome then "Todo updated successfully!"
          else "Todo created successfully!")
        "success"

/-- Example record: a weekly todo created on 2024-01-01. -/
def weeklyTodo : Todo :=
  { id := "t0", title := "Gym", description := "", date := isoDate 2024 1 1, time := "18:00",
    priority := "medium", category := "health", recurring := true, completed := false,
    parentId := none, createdAt := "2024-01-01T09:00:00.000Z",
    updatedAt := "2024-01-01T09:00:00.000Z" }

/-- Example environment: the `i`-th generated id is `t` followed by `i`. -/
def numbered (i : Nat) : Fresh :=
  { id := "t" ++ toString i, createdAt := "2024-01-01T09:00:00.000Z",
    updatedAt := "2024-01-01T09:00:00.000Z" }

/-- Example form data: a todo titled "Pay rent" on the given date. -/
def rentForm (date : Option Int) : FormData :=
  { title := "Pay rent", description := "", date := date, time := "", priority := "medium",
    category := "other", recurring := false }

/-- What `JSON.parse(e.target.result)` yields for an import file, as far as
`importTodos` looks at it. -/
inductive ImportFile where
  /-- The text is not JSON: `JSON.parse` throws. -/
  | invalidJson
  /-- The text is `null`: reading `data.todos` throws. -/
  | jsonNull
  /-- Any other JSON value; `todos = none` when `data.todos` is missing, falsy or not an
  array, `some ts` when it is the array `ts` of todo records. -/
  | jsonValue (todos : Option (List Todo))
  deriving DecidableEq

/-- Body of the `try` block in the `onload` handler of `importTodos`. -/
def importBody (app : CalendarApp) (file : ImportFile) : Except String CalendarApp :=
  match file with
  | ImportFile.invalidJson => Except.error "SyntaxError"
  | ImportFile.jsonNull => Except.error "TypeError"
  | ImportFile.jsonValue (some imported) =>
    let existingIds := app.todos.map (fun t => t.id)
    let newTodos := imported.filter (fun t => !(existingIds.contains t.id))
    let todos := app.todos ++ newTodos
    let merged := saveTodos { app with todos := todos, filteredTodos := todos }
    Except.ok (showNotification merged
      ("Imported " ++ toString newTodos.length ++ " todos successfully!") "success")
  | ImportFile.jsonValue none => Except.error "Invalid file format"

/-- Method `importTodos(file)`, once the file has been read. -/
def importTodos (app : CalendarApp) (file : ImportFile) : CalendarApp :=
  match importBody app file with
  | Except.ok done => done
  | Except.error _ =>
    showNotification app "Error importing todos. Please check the file format." "error"

end TodoManager

namespace CalendarManager

/-- One iteration of the loop in `renderDays`: the arguments `date`, `dayNumber` and
`isOtherMonth` handed to `setupDayElement`. Every `Date` here is built from local fields
and read through local getters; it is held as its local calendar day. -/
structure DayCell where
  date : Int
  dayNumber : Int
  isOtherMonth : Bool
  deriving DecidableEq

/-- Method `renderDays`, for `year = currentDate.getFullYear()` and
`month = currentDate.getMonth()`: the cells appended to the grid, in order. -/
def renderDays (year month : Int) : List DayCell :=
  let firstDay := makeDay year month 1
  let lastDay := makeDay year (month + 1) 0
  let daysInMonth := dateFromDay lastDay
  let startDay := weekDay firstDay
  let prevMonth := makeDay year (month - 1) 0
  let daysInPrevMonth := dateFromDay prevMonth
  let totalCells := 42
  (List.range totalCells).map fun (i : Nat) =>
    if (i : Int) < startDay then
      let day := daysInPrevMonth - startDay + (i : Int) + 1
      { date := makeDay year (month - 1) day, dayNumber := day, isOtherMonth := true }
    else if (i : Int) < startDay + daysInMonth then
      let day := (i : Int) - startDay + 1
      { date := makeDay year month day, dayNumber := day, isOtherMonth := false }
    else
      let day := (i : Int) - startDay - daysInMonth + 1
      { date := makeDay year (month + 1) day, dayNumber := day, isOtherMonth := true }

end CalendarManager

end Calender

/-! ## Special dates and month navigation (`calender/js/app.js`) -/

namespace JsDate

/-- Method `getFullYear()`: year in local time. -/
def getFullYear (tz : TimeZone) (t : Int) : Int := yearFromDay (day (localTime tz t))

/-- Method `getMonth()`: month in local time (0 = January). -/
def getMonth (tz : TimeZone) (t : Int) : Int := monthFromDay (day (localTime tz t))

/-- Method `setMonth(month)`: replace the local month, keep the local day of the month and
time of day; `MakeDay` carries a day past the end of the month into the next one. -/
def setMonth (tz : TimeZone) (t : Int) (month : Int) : Int :=
  let tl := localTime tz t
  let newDay := makeDay (yearFromDay (day tl)) month (dateFromDay (day tl))
  utc tz (newDay * msPerDay + timeWithinDay tl)

end JsDate

namespace Calender

open JsDate

namespace CalendarApp

/-- Value of one entry of `thaiSpecialDates`. -/
structure SpecialDate where
  name : String
  type : String
  color : String
  deriving DecidableEq

/-- An object literal: the properties in the order written; a key written twice keeps its
place and takes the later value. -/
def objectLiteral {α : Type} : List (Int × α) → List (Int × α) → List (Int × α)
  | acc, [] => acc
  | acc, (k, v) :: rest =>
    objectLiteral
      (if acc.any (fun e => e.1 = k) then acc.map (fun e => if e.1 = k then (k, v) else e)
        else acc ++ [(k, v)])
      rest

/-- The properties written in the literal of `initThaiSpecialDates`, in source order:
Thai holidays of 2024 and 2025 (36 entries), then international dates of 2024 and 2025
(22 entries). Keys are the date strings. -/
def thaiSpecialDateEntries : List (Int × SpecialDate) :=
  [
    (isoDate 2024 1 1, ⟨"New Year's Day", "national", "#ef4444"⟩),
    (isoDate 2024 2 24, ⟨"Makha Bucha Day", "buddhist", "#f59e0b"⟩),
    (isoDate 2024 4 6, ⟨"Chakri Dynasty Day", "national", "#ef4444"⟩),
    (isoDate 2024 4 13, ⟨"Songkran Festival (Day 1)", "festival", "#06b6d4"⟩),
    (isoDate 2024 4 14, ⟨"Songkran Festival (Day 2)", "festival", "#06b6d4"⟩),
    (isoDate 2024 4 15, ⟨"Songkran Festival (Day 3)", "festival", "#06b6d4"⟩),
    (isoDate 2024 5 1, ⟨"National Labour Day", "national", "#ef4444"⟩),
    (isoDate 2024 5 4, ⟨"Coronation Day", "royal", "#7c3aed"⟩),
    (isoDate 2024 5 22, ⟨"Visakha Bucha Day", "buddhist", "#f59e0b"⟩),
    (isoDate 2024 6 3, ⟨"Queen Suthida's Birthday", "royal", "#7c3aed"⟩),
    (isoDate 2024 7 20, ⟨"Buddhist Lent Day", "buddhist", "#f59e0b"⟩),
    (isoDate 2024 7 28, ⟨"King Vajiralongkorn's Birthday", "royal", "#7c3aed"⟩),
    (isoDate 2024 8 12, ⟨"Queen Sirikit's Birthday", "royal", "#7c3aed"⟩),
    (isoDate 2024 10 13, ⟨"King Bhumibol Memorial Day", "royal", "#7c3aed"⟩),
    (isoDate 2024 10 23, ⟨"Chulalongkorn Day", "royal", "#7c3aed"⟩),
    (isoDate 2024 12 5, ⟨"King Bhumibol's Birthday", "royal", "#7c3aed"⟩),
    (isoDate 2024 12 10, ⟨"Constitution Day", "national", "#ef4444"⟩),
    (isoDate 2024 12 31, ⟨"New Year's Eve", "festival", "#06b6d4"⟩),
    (isoDate 2025 1 1, ⟨"New Year's Day", "national", "#ef4444"⟩),
    (isoDate 2025 2 12, ⟨"Makha Bucha Day", "buddhist", "#f59e0b"⟩),
    (isoDate 2025 4 6, ⟨"Chakri Dynasty Day", "national", "#ef4444"⟩),
    (isoDate 2025 4 13, ⟨"Songkran Festival (Day 1)", "festival", "#06b6d4"⟩),
    (isoDate 2025 4 14, ⟨"Songkran Festival (Day 2)", "festival", "#06b6d4"⟩),
    (isoDate 2025 4 15, ⟨"Songkran Festival (Day 3)", "festival", "#06b6d4"⟩),
    (isoDate 2025 5 1, ⟨"National Labour Day", "national", "#ef4444"⟩),
    (isoDate 2025 5 4, ⟨"Coronation Day", "royal", "#7c3aed"⟩),
    (isoDate 2025 5 11, ⟨"Visakha Bucha Day", "buddhist", "#f59e0b"⟩),
    (isoDate 2025 6 3, ⟨"Queen Suthida's Birthday", "royal", "#7c3aed"⟩),
    (isoDate 2025 7 9, ⟨"Buddhist Lent Day", "buddhist", "#f59e0b"⟩),
    (isoDate 2025 7 28, ⟨"King Vajiralongkorn's Birthday", "royal", "#7c3aed"⟩),
    (isoDate 2025 8 12, ⟨"Queen Sirikit's Birthday", "royal", "#7c3aed"⟩),
    (isoDate 2025 10 13, ⟨"King Bhumibol Memorial Day", "royal", "#7c3aed"⟩),
    (isoDate 2025 10 23, ⟨"Chulalongkorn Day", "royal", "#7c3aed"⟩),
    (isoDate 2025 12 5, ⟨"King Bhumibol's Birthday", "royal", "#7c3aed"⟩),
    (isoDate 2025 12 10, ⟨"Constitution Day", "national", "#ef4444"⟩),
    (isoDate 2025 12 31, ⟨"New Year's Eve", "festival", "#06b6d4"⟩),
    (isoDate 2024 2 14, ⟨"Valentine's Day", "international", "#ec4899"⟩),
    (isoDate 2024 3 17, ⟨"St. Patrick's Day", "international", "#10b981"⟩),
    (isoDate 2024 3 31, ⟨"Easter Sunday", "international", "#a855f7"⟩),
    (isoDate 2024 4 1, ⟨"April Fool's Day", "international", "#f97316"⟩),
    (isoDate 2024 5 12, ⟨"Mother's Day", "international", "#ec4899"⟩),
    (isoDate 2024 6 16, ⟨"Father's Day", "international", "#3b82f6"⟩),
    (isoDate 2024 7 4, ⟨"Independence Day (US)", "international", "#ef4444"⟩),
    (isoDate 2024 10 31, ⟨"Halloween", "international", "#f97316"⟩),
    (isoDate 2024 11 28, ⟨"Thanksgiving (US)", "international", "#f59e0b"⟩),
    (isoDate 2024 12 24, ⟨"Christmas Eve", "international", "#10b981"⟩),
    (isoDate 2024 12 25, ⟨"Christmas Day", "international", "#ef4444"⟩),
    (isoDate 2025 2 14, ⟨"Valentine's Day", "international", "#ec4899"⟩),
    (isoDate 2025 3 17, ⟨"St. Patrick's Day", "international", "#10b981"⟩),
    (isoDate 2025 4 1, ⟨"April Fool's Day", "international", "#f97316"⟩),
    (isoDate 2025 4 20, ⟨"Easter Sunday", "international", "#a855f7"⟩),
    (isoDate 2025 5 11, ⟨"Mother's Day", "international", "#ec4899"⟩),
    (isoDate 2025 6 15, ⟨"Father's Day", "international", "#3b82f6"⟩),
    (isoDate 2025 7 4, ⟨"Independence Day (US)", "international", "#ef4444"⟩),
    (isoDate 2025 10 31, ⟨"Halloween", "international", "#f97316"⟩),
    (isoDate 2025 11 27, ⟨"Thanksgiving (US)", "international", "#f59e0b"⟩),
    (isoDate 2025 12 24, ⟨"Christmas Eve", "international", "#10b981"⟩),
    (isoDate 2025 12 25, ⟨"Christmas Day", "international", "#ef4444"⟩)
  ]

/-- Method `initThaiSpecialDates`: the object the literal evaluates to. -/
def initThaiSpecialDates : List (Int × SpecialDate) :=
  objectLiteral [] thaiSpecialDateEntries

/-- Method `isThaiSpecialDate(date)`: `none` is `null`. -/
def isThaiSpecialDate (date : Int) : Option SpecialDate :=
  let dateStr := formatDateForStorage date
  initThaiSpecialDates.lookup dateStr

/-- Method `nextMonth`, on the field `currentDate`. -/
def nextMonth (tz : TimeZone) (currentDate : Int) : Int :=
  setMonth tz currentDate (getMonth tz currentDate + 1)

/-- Method `previousMonth`, on the field `currentDate`. -/
def previousMonth (tz : TimeZone) (currentDate : Int) : Int :=
  setMonth tz currentDate (getMonth tz currentDate - 1)

/-- The month the calendar displays: `currentDate.getFullYear()` and
`currentDate.getMonth()`, as read by `renderDays`. -/
def displayedMonth (tz : TimeZone) (currentDate : Int) : Int × Int :=
  (getFullYear tz currentDate, getMonth tz currentDate)

end CalendarApp

end Calender

/-!
## Todo lists with shared objects

`this.todos` and `this.filteredTodos` hold references to the same todo objects:
`toggleTodoComplete` and `moveTodoToDate` change an object in place, and the change shows
through both arrays. For the operations that depend on this, the state keeps the objects in
a heap and the two arrays as lists of references; a new object takes the next unused
reference. The filter fields `searchTerm`, `statusFilter` and `priorityFilter` are the
empty string while unset. `confirm(...)` is an input. `toLowerCase` is taken on ASCII
letters.
-/

namespace Calender

open JsDate

namespace CalendarApp

/-- Whether the characters `p` open the characters `s`. -/
def startsWithChars : List Char → List Char → Bool
  | _, [] => true
  | [], _ :: _ => false
  | a :: s, b :: p => a == b && startsWithChars s p

/-- Whether the characters `p` occur in `s` as a contiguous run. -/
def includesChars : List Char → List Char → Bool
  | [], p => p.isEmpty
  | a :: s, p => startsWithChars (a :: s) p || includesChars s p

/-- Method `String.prototype.includes`. -/
def includes (s sub : String) : Bool := includesChars s.toList sub.toList

/-- Method `String.prototype.toLowerCase`, on the letters A to Z; JavaScript also maps
letters outside ASCII, which this leaves as they are. -/
def toLowerCase (s : String) : String := s.toLower

/-- The callback of `this.todos.filter(...)` in `applyFilters`. -/
def matchesFilters (searchTerm statusFilter priorityFilter : String) (todo : Todo) : Bool :=
  if searchTerm ≠ "" ∧
      ¬ (includes (toLowerCase todo.title) searchTerm = true ∨
        (todo.description ≠ "" ∧
          includes (toLowerCase todo.description) searchTerm = true)) then false
  else if (statusFilter ≠ "" ∧ statusFilter ≠ "all") ∧
      ((statusFilter = "completed" ∧ todo.completed = false) ∨
        (statusFilter = "pending" ∧ todo.completed = true)) then false
  else if (priorityFilter ≠ "" ∧ priorityFilter ≠ "all") ∧
      todo.priority ≠ priorityFilter then false
  else true

end CalendarApp

namespace Shared

open CalendarApp TodoManager

/-- Reference to a todo object. -/
abbrev Ref := Nat

/-- State of `CalendarApp` with the todo objects held by reference. -/
structure App where
  /-- The todo object behind each reference. -/
  heap : Ref → Todo
  /-- The next unused reference. -/
  next : Ref
  /-- Field `this.todos`. -/
  todos : List Ref
  /-- Field `this.filteredTodos`. -/
  filteredTodos : List Ref
  /-- Field `this.searchTerm`. -/
  searchTerm : String
  /-- Field `this.statusFilter`. -/
  statusFilter : String
  /-- Field `this.priorityFilter`. -/
  priorityFilter : String
  /-- Entry `localStorage['calender_todos']`, as the list that was serialised. -/
  stored : Option (List Todo)

/-- State the constructor sets up before `init`. -/
def App.empty : App :=
  { heap := fun _ => weeklyTodo, next := 0, todos := [], filteredTodos := [],
    searchTerm := "", statusFilter := "", priorityFilter := "", stored := none }

/-- Method `saveTodos`. -/
def saveTodos (app : App) : App :=
  { app with stored := some (app.todos.map app.heap) }

/-- Method `applyFilters`. -/
def applyFilters (app : App) : App :=
  { app with
    filteredTodos := app.todos.filter fun r =>
      matchesFilters app.searchTerm app.statusFilter app.priorityFilter (app.heap r) }

/-- Statements `this.app.todos.push(todo); this.app.filteredTodos.push(todo)` for a newly
built object `todo`. -/
def pushNew (app : App) (todo : Todo) : App :=
  { app with
    heap := Function.update app.heap app.next todo,
    next := app.next + 1,
    todos := app.todos ++ [app.next],
    filteredTodos := app.filteredTodos ++ [app.next] }

/-- Method `createRecurringTodos(originalTodo)`. -/
def createRecurringTodos (tz : TimeZone) (fresh : Nat → Fresh) (app : App)
    (originalTodo : Todo) : App :=
  let recurringCount := 10
  let pushed := (List.range' 1 recurringCount).foldl
    (fun (a : App) (i : Nat) => pushNew a (recurringTodo tz fresh originalTodo i)) app
  saveTodos pushed

/-- Method `createTodo(todoData)`. -/
def createTodo (tz : TimeZone) (fresh : Nat → Fresh) (app : App) (todoData : TodoData) :
    App :=
  let todo : Todo :=
    { id := (fresh 0).id,
      title := todoData.title,
      description := todoData.description,
      date := todoData.date,
      time := todoData.time,
      priority := todoData.priority,
      category := todoData.category,
      recurring := todoData.recurring,
      completed := false,
      parentId := none,
      createdAt := (fresh 0).createdAt,
      updatedAt := (fresh 0).updatedAt }
  let app1 := saveTodos (pushNew app todo)
  if todo.recurring then createRecurringTodos tz fresh app1 todo else app1

/-- Method `updateTodo(todoId, todoData)`; `stamp` is `new Date().toISOString()`. The
merged record is a new object. -/
def updateTodo (stamp : String) (app : App) (todoId : String) (todoData : TodoData) : App :=
  match app.todos.findIdx? (fun r => (app.heap r).id = todoId) with
  | none => app
  | some todoIndex =>
    match app.todos.get? todoIndex with
    | none => app
    | some old =>
      let updated : Todo :=
        { app.heap old with
          title := todoData.title,
          description := todoData.description,
          date := todoData.date,
          time := todoData.time,
          priority := todoData.priority,
          category := todoData.category,
          recurring := todoData.recurring,
          updatedAt := stamp }
      let heap := Function.update app.heap app.next updated
      let todos := app.todos.set todoIndex app.next
      let filteredTodos :=
        match app.filteredTodos.findIdx? (fun r => (heap r).id = todoId) with
        | none => app.filteredTodos
        | some filteredIndex => app.filteredTodos.set filteredIndex app.next
      saveTodos { app with heap := heap, next := app.next + 1, todos := todos,
                           filteredTodos := filteredTodos }

/-- Method `deleteTodo(todoId)`; `confirmed` is the answer to `confirm(...)`. -/
def deleteTodo (confirmed : Bool) (app : App) (todoId : String) : App :=
  if confirmed = false then app
  else
    saveTodos { app with
      todos := app.todos.filter (fun r => (app.heap r).id ≠ todoId),
      filteredTodos := app.filteredTodos.filter (fun r => (app.heap r).id ≠ todoId) }

/-- Method `toggleTodoComplete(todoId)`; `stamp` is `new Date().toISOString()`. -/
def toggleTodoComplete (stamp : String) (app : App) (todoId : String) : App :=
  match app.todos.find? (fun r => (app.heap r).id = todoId) with
  | none => app
  | some todo =>
    let heap1 := Function.update app.heap todo
      { app.heap todo with completed := !(app.heap todo).completed, updatedAt := stamp }
    let heap2 :=
      match app.filteredTodos.find? (fun r => (heap1 r).id = todoId) with
      | none => heap1
      | some filteredTodo =>
        Function.update heap1 filteredTodo
          { heap1 filteredTodo with
            completed := (heap1 todo).completed, updatedAt := (heap1 todo).updatedAt }
    saveTodos { app with heap := heap2 }

/-- Method `moveTodoToDate(todoId, newDate)`; `stamp` is `new Date().toISOString()`. -/
def moveTodoToDate (stamp : String) (app : App) (todoId : String) (newDate : Int) : App :=
  match app.todos.find? (fun r => (app.heap r).id = todoId) with
  | none => app
  | some todo =>
    let heap1 := Function.update app.heap todo
      { app.heap todo with date := newDate, updatedAt := stamp }
    let heap2 :=
      match app.filteredTodos.find? (fun r => (heap1 r).id = todoId) with
      | none => heap1
      | some filteredTodo =>
        Function.update heap1 filteredTodo
          { heap1 filteredTodo with date := newDate, updatedAt := (heap1 todo).updatedAt }
    saveTodos { app with heap := heap2 }

/-- Statement `this.app.todos.push(...records)` for objects that `JSON.parse` has just
built: each takes a new reference. -/
def pushParsed (app : App) (records : List Todo) : App :=
  records.foldl
    (fun (a : App) (t : Todo) =>
      { a with heap := Function.update a.heap a.next t, next := a.next + 1,
               todos := a.todos ++ [a.next] })
    app

/-- Method `importTodos(file)`, once the file has been read. -/
def importTodos (app : App) (file : ImportFile) : App :=
  match file with
  | ImportFile.jsonValue (some imported) =>
    let existingIds := app.todos.map (fun r => (app.heap r).id)
    let newTodos := imported.filter (fun t => !(existingIds.contains t.id))
    let merged := pushParsed app newTodos
    saveTodos { merged with filteredTodos := merged.todos }
  | _ => app

/-- Method `deleteAllCompleted`; `confirmed` is the answer to `confirm(...)`. -/
def deleteAllCompleted (confirmed : Bool) (app : App) : App :=
  if confirmed = false then app
  else
    let initialCount := app.todos.length
    let filtered : App :=
      { app with
        todos := app.todos.filter (fun r => !(app.heap r).completed),
        filteredTodos := app.filteredTodos.filter (fun r => !(app.heap r).completed) }
    let deletedCount := initialCount - filtered.todos.length
    if deletedCount > 0 then saveTodos filtered else filtered

/-- Method `loadTodos`, for a stored value that is an array of todo records (`some`) or is
absent or unreadable (`none`, read as the empty list). -/
def loadTodos (app : App) (stored : Option (List Todo)) : App :=
  let loaded := pushParsed { app with todos := [] } (stored.getD [])
  { loaded with filteredTodos := loaded.todos }

/-- Every reference in `filteredTodos` is also in `todos`. -/
def AllShown (app : App) : Prop := ∀ r ∈ app.filteredTodos, r ∈ app.todos

/-- Every reference in `todos` has been allocated, so that a new object is none of them. -/
def Allocated (app : App) : Prop := ∀ r ∈ app.todos, r < app.next

/-- The reachable shape of the two lists: references in `todos` are allocated, and for each
id the objects with that id that are in `filteredTodos` are among those in `todos`, in the
same order. -/
def Consistent (app : App) : Prop :=
  Allocated app ∧
  ∀ x : String,
    (app.filteredTodos.filter fun r => (app.heap r).id = x).Sublist
      (app.todos.filter fun r => (app.heap r).id = x)

/-- Field `filteredTodos` is exactly the todos that pass the current filters, in order. -/
def Filtered (app : App) : Prop :=
  app.filteredTodos = app.todos.filter fun r =>
    matchesFilters app.searchTerm app.statusFilter app.priorityFilter (app.heap r)

/-- No filter is active: no search term, and status and priority unset or `all`. -/
def NoFilter (app : App) : Prop :=
  app.searchTerm = "" ∧ (app.statusFilter = "" ∨ app.statusFilter = "all") ∧
  (app.priorityFilter = "" ∨ app.priorityFilter = "all")

/-- Example form data after validation: a one-off todo titled "Pay rent" on 2024-02-01. -/
def rentData : TodoData :=
  { title := "Pay rent", description := "", date := isoDate 2024 2 1, time := "",
    priority := "medium", category := "other", recurring := false }

/-- Example state: no todos yet, the status filter set to `completed`. -/
def showingCompleted : App := { App.empty with statusFilter := "completed" }

end Shared

end Calender

/-!
# Expense tracker: dashboard, calendar, reports and start-up

Shallow embedding of `expense-tracker/js/expenses.js` (class `ExpenseManager`),
`expense-tracker/js/calendar.js` (class `CalendarManager` of the expense tracker),
`expense-tracker/js/reports.js` (class `ReportsManager`) and the constructor of
`ExpenseTracker` in `expense-tracker/js/app.js`. Numbers are exact rationals, as for
`CurrencyManager`.
-/

namespace ExpenseManager

/-- The literal `rates` of `ExpenseManager.convertCurrency`. -/
def rates : CurrencyManager.Rates :=
  [("USD", 1), ("EUR", 0.85), ("GBP", 0.73), ("THB", 33.5), ("JPY", 110), ("CAD", 1.25),
    ("AUD", 1.35), ("CHF", 0.92)]

/-- Method `ExpenseManager.convertCurrency(amount, fromCurrency, toCurrency)`. -/
def convertCurrency (amount : ℚ) (fromCurrency toCurrency : String) : ℚ :=
  let usdAmount := amount / CurrencyManager.rateOrOne rates fromCurrency
  usdAmount * CurrencyManager.rateOrOne rates toCurrency

end ExpenseManager

namespace ExpenseTracker

open Calender.CalendarApp

/-- Expression `JSON.parse(localStorage.getItem(key))`: a missing entry is `null`, which
`JSON.parse` reads as the text `null`; the empty string and malformed text throw. -/
def parseItem : StoredItem → Except String Json
  | StoredItem.absent => Except.ok Json.null
  | StoredItem.emptyText => Except.error "SyntaxError"
  | StoredItem.text none => Except.error "SyntaxError"
  | StoredItem.text (some v) => Except.ok v

/-- Truthiness of a JSON value, as `||` tests it. -/
def truthy : Json → Bool
  | Json.null => false
  | Json.bool b => b
  | Json.num n => decide (n ≠ 0)
  | Json.str s => decide (s ≠ "")
  | Json.arr _ => true
  | Json.obj _ => true

/-- The default settings object of the constructor. -/
def defaultSettings : Json :=
  Json.obj [("baseCurrency", Json.str "USD"), ("autoUpdateRates", Json.bool true),
    ("theme", Json.str "light")]

/-- The two storage reads that open the constructor of `ExpenseTracker`: the values of
`this.expenses` and `this.settings`, or the exception that leaves the constructor. -/
def readStorage (expenses settings : StoredItem) : Except String (Json × Json) :=
  match parseItem expenses with
  | Except.error e => Except.error e
  | Except.ok v =>
    let expensesField := if truthy v then v else Json.arr []
    match parseItem settings with
    | Except.error e => Except.error e
    | Except.ok w =>
      let settingsField := if truthy w then w else defaultSettings
      Except.ok (expensesField, settingsField)

/-- Method `getCategoryName(category)`. -/
def getCategoryName (category : String) : String :=
  match [("food", "Food & Dining"), ("transport", "Transport"),
      ("entertainment", "Entertainment"), ("shopping", "Shopping"),
      ("bills", "Bills & Utilities"), ("health", "Healthcare"),
      ("other", "Other")].lookup category with
  | some n => n
  | none => "Other"

/-- An expense record, with the fields the reports read. -/
structure Expense where
  amount : ℚ
  currency : String
  category : String
  deriving DecidableEq

namespace CalendarManager

/-- The legend `renderCalendar` prints under the grid: class of the dot and its text. -/
def legend : List (String × String) :=
  [("low", "Low spending (< $50)"), ("medium", "Medium spending ($50 - $200)"),
    ("high", "High spending (> $200)")]

/-- Method `getSpendingLevel(amount)` of the expense calendar. -/
def getSpendingLevel (amount : ℚ) : String :=
  if amount = 0 then ""
  else if amount < 50 then "low"
  else if amount < 200 then "medium"
  else "high"

end CalendarManager

namespace ReportsManager

/-- Value of one key of `reportData.categoryBreakdown` (the display icon is left out). -/
structure CategoryEntry where
  total : ℚ
  count : Nat
  percentage : ℚ
  name : String
  deriving DecidableEq

/-- The part of `reportData` that `calculateReportMetrics` fills in before the trends. -/
structure ReportData where
  totalAmount : ℚ
  categoryBreakdown : List (String × CategoryEntry)
  deriving DecidableEq

/-- Body of the `forEach` over the expenses: create the entry of the category when it is
missing, then add the converted amount and count the expense. -/
def addToCategory : List (String × CategoryEntry) → String → ℚ →
    List (String × CategoryEntry)
  | [], category, convertedAmount =>
    [(category, { total := 0 + convertedAmount, count := 0 + 1, percentage := 0,
                  name := getCategoryName category })]
  | (k, c) :: rest, category, convertedAmount =>
    if k = category then
      (k, { c with total := c.total + convertedAmount, count := c.count + 1 }) :: rest
    else (k, c) :: addToCategory rest category convertedAmount

/-- Call `this.tracker.convertCurrency(expense.amount, expense.currency, baseCurrency)`. -/
def convertExpense (m : CurrencyManager) (expense : Expense) : ℚ × CurrencyManager :=
  CurrencyManager.convertCurrency m expense.amount expense.currency m.baseCurrency

/-- Method `calculateReportMetrics`, up to the percentages, starting from the empty
`categoryBreakdown` that `generateReport` sets; returns the report and the currency
manager after the conversions. -/
def calculateReportMetrics (m : CurrencyManager) (expenses : List Expense) :
    ReportData × CurrencyManager :=
  let summed := expenses.foldl
    (fun (acc : ℚ × CurrencyManager) (expense : Expense) =>
      let converted := convertExpense acc.2 expense
      (acc.1 + converted.1, converted.2))
    (0, m)
  let totalAmount := summed.1
  let broken := expenses.foldl
    (fun (acc : List (String × CategoryEntry) × CurrencyManager) (expense : Expense) =>
      let converted := convertExpense acc.2 expense
      (addToCategory acc.1 expense.category converted.1, converted.2))
    ([], summed.2)
  let withPercentages := broken.1.map fun (entry : String × CategoryEntry) =>
    (entry.1, { entry.2 with
      percentage := if totalAmount > 0 then entry.2.total / totalAmount * 100 else 0 })
  ({ totalAmount := totalAmount, categoryBreakdown := withPercentages }, broken.2)

end ReportsManager

end ExpenseTracker

namespace CurrencyManager

set_option linter.unusedVariables false

/-! ## Auxiliary facts -/

theorem rateOrOne_of_lookup {t : Rates} {c : String} {r : ℚ}
    (h : t.lookup c = some r) (hr : r ≠ 0) : rateOrOne t c = r := by
  simp [rateOrOne, h, hr]

theorem rateOrOne_of_absent {t : Rates} {c : String}
    (h : t.lookup c = none) : rateOrOne t c = 1 := by
  simp [rateOrOne, h]

theorem rateOrOne_ne_zero (t : Rates) (c : String) : rateOrOne t c ≠ 0 := by
  unfold rateOrOne
  split
  · split <;> simp_all
  · exact one_ne_zero

theorem setRate_ne_nil (t : Rates) (k : String) (v : ℚ) : setRate t k v ≠ [] := by
  cases t with
  | nil => simp [setRate]
  | cons p rest =>
    obtain ⟨k0, v0⟩ := p
    simp only [setRate]
    split <;> simp

theorem useFallbackRates_baseCurrency (m : CurrencyManager) :
    (useFallbackRates m).baseCurrency = m.baseCurrency := by
  unfold useFallbackRates
  split <;> rfl

theorem mem_of_lookup {t : Rates} {c : String} {r : ℚ}
    (h : t.lookup c = some r) : (c, r) ∈ t := by
  induction t with
  | nil => simp [List.lookup] at h
  | cons p rest ih =>
    obtain ⟨k0, v0⟩ := p
    by_cases hk : c = k0
    · subst hk
      simp [List.lookup] at h
      simp [h]
    · have hb : (c == k0) = false := by simpa using hk
      simp [List.lookup, hb] at h
      exact List.mem_cons_of_mem _ (ih h)

theorem rateOrOne_pos {t : Rates} (hpos : ∀ p ∈ t, 0 < p.2) (c : String) :
    0 < rateOrOne t c := by
  unfold rateOrOne
  split
  · rename_i r hr
    have := hpos _ (mem_of_lookup hr)
    split
    · exact one_pos
    · exact this
  · exact one_pos

theorem setRate_pos {t : Rates} (hpos : ∀ p ∈ t, 0 < p.2) (k : String) {v : ℚ}
    (hv : 0 < v) : ∀ p ∈ setRate t k v, 0 < p.2 := by
  induction t with
  | nil =>
    intro p hp
    simp [setRate] at hp
    subst hp
    exact hv
  | cons q rest ih =>
    obtain ⟨k0, v0⟩ := q
    intro p hp
    simp only [setRate] at hp
    split at hp
    · rcases List.mem_cons.1 hp with h | h
      · subst h; exact hv
      · exact hpos p (List.mem_cons_of_mem _ h)
    · rcases List.mem_cons.1 hp with h | h
      · subst h; exact hpos _ (List.mem_cons_self _ _)
      · exact ih (fun p hp => hpos p (List.mem_cons_of_mem _ hp)) p h

theorem fallbackRates_pos {b : String} {row : Rates} (h : fallbackRates b = some row) :
    ∀ p ∈ row, 0 < p.2 := by
  unfold fallbackRates at h
  split at h <;> simp at h <;> subst h <;> intro p hp <;> simp at hp <;>
    rcases hp with hp | hp | hp | hp | hp | hp | hp <;> subst hp <;> norm_num

/-- The manager on which `convertCurrency` reads its rates. -/
theorem convertCurrency_snd (m : CurrencyManager) (a : ℚ) {X Y : String} (hXY : X ≠ Y) :
    (convertCurrency m a X Y).2 =
      if m.exchangeRates = [] then useFallbackRates m else m := by
  simp [convertCurrency, hXY]

theorem useFallbackRates_idem (m : CurrencyManager) (he : m.exchangeRates = []) :
    (if (useFallbackRates m).exchangeRates = [] then useFallbackRates (useFallbackRates m)
      else useFallbackRates m) = useFallbackRates m := by
  cases h : fallbackRates m.baseCurrency with
  | none =>
    have h1 : useFallbackRates m = m := by simp [useFallbackRates, h]
    simp [h1]
  | some row =>
    have h1 : (useFallbackRates m).exchangeRates ≠ [] := by
      simp [useFallbackRates, h, setRate_ne_nil]
    simp [h1]

/-- A second conversion between distinct currencies reads the same manager as the
first one left behind. -/
theorem convertCurrency_snd_idem (m : CurrencyManager) (a b : ℚ) {X Y U V : String}
    (hXY : X ≠ Y) (hUV : U ≠ V) :
    (convertCurrency (convertCurrency m a X Y).2 b U V).2 = (convertCurrency m a X Y).2 := by
  rw [convertCurrency_snd _ _ hUV, convertCurrency_snd _ _ hXY]
  by_cases he : m.exchangeRates = []
  · simp only [he, if_true]
    exact useFallbackRates_idem m he
  · simp [he]

/-- Between distinct currencies the result is the amount times the rate that
`getExchangeRate` reports on the manager left behind, rounded half-up to cents. -/
theorem convertCurrency_fst (m : CurrencyManager) (a : ℚ) {X Y : String} (hXY : X ≠ Y) :
    (convertCurrency m a X Y).1 =
      (⌊a * getExchangeRate (convertCurrency m a X Y).2 X Y * 100 + 1 / 2⌋ : ℚ) / 100 := by
  rw [convertCurrency_snd m a hXY]
  simp only [convertCurrency, getExchangeRate, hXY, if_false, mathRound]
  split_ifs <;> simp only [mul_one_div, mul_div_assoc, div_mul_eq_mul_div]

theorem convertCurrency_snd_pos (m : CurrencyManager) (a : ℚ) (X Y : String)
    (hpos : ∀ p ∈ m.exchangeRates, 0 < p.2) :
    ∀ p ∈ (convertCurrency m a X Y).2.exchangeRates, 0 < p.2 := by
  unfold convertCurrency
  split_ifs with h1 h2
  · exact hpos
  · simp only
    unfold useFallbackRates
    split
    · rename_i row hrow
      exact setRate_pos (fallbackRates_pos hrow) _ one_pos
    · exact hpos
  · exact hpos

theorem getExchangeRate_pos (m : CurrencyManager) (X Y : String)
    (hpos : ∀ p ∈ m.exchangeRates, 0 < p.2) : 0 < getExchangeRate m X Y := by
  have hr := rateOrOne_pos hpos
  simp only [getExchangeRate]
  split_ifs
  · exact one_pos
  · exact hr _
  · exact div_pos one_pos (hr _)
  · exact div_pos (hr _) (hr _)

theorem getExchangeRate_swap (m : CurrencyManager) (X Y : String) :
    getExchangeRate m Y X = 1 / getExchangeRate m X Y := by
  have hr := rateOrOne_ne_zero m.exchangeRates
  unfold getExchangeRate
  by_cases hXY : X = Y
  · subst hXY; simp
  · have hYX : Y ≠ X := fun h => hXY h.symm
    simp only [hXY, hYX, if_false]
    by_cases hX : X = m.baseCurrency
    · have hY : Y ≠ m.baseCurrency := fun h => hXY (hX.trans h.symm)
      simp [hX, hY]
    · by_cases hY : Y = m.baseCurrency
      · simp [hX, hY]
      · simp [hX, hY]

/-- Rounding to cents moves a value by at most half a cent. -/
theorem round2_error (x : ℚ) : |(⌊x * 100 + 1 / 2⌋ : ℚ) / 100 - x| ≤ 1 / 200 := by
  have h1 := Int.floor_le (x * 100 + 1 / 2)
  have h2 := Int.lt_floor_add_one (x * 100 + 1 / 2)
  rw [abs_le]
  constructor <;> linarith

theorem setRate_fallbackRates {b : String} {row : Rates} (h : fallbackRates b = some row) :
    setRate row b 1 = row ++ [(b, 1)] := by
  unfold fallbackRates at h
  split at h <;> simp at h <;> subst h <;> simp [setRate]

theorem lookup_fallbackRates {b : String} {row : Rates} (h : fallbackRates b = some row) :
    (row ++ [(b, 1)]).lookup b = some 1 := by
  unfold fallbackRates at h
  split at h <;> simp at h <;> subst h <;> simp [List.lookup]

/-- What `updateExchangeRates` does once the cache check lets the request through. -/
theorem updateExchangeRates_of_stale (m : CurrencyManager) (now : Int)
    (fetch : String → FetchResult) (now2 : Int)
    (hstale : ∀ t, m.lastUpdate = some t → t ≤ now - 24 * 60 * 60 * 1000) :
    updateExchangeRates m now fetch now2 =
      match fetch (baseUrl ++ m.baseCurrency) with
      | FetchResult.json (some rates) =>
        ({ m with exchangeRates := rates, lastUpdate := some now2,
                  cachedRates := some rates, cachedLastUpdate := some now2 },
          [baseUrl ++ m.baseCurrency])
      | FetchResult.json none => (m, [baseUrl ++ m.baseCurrency])
      | FetchResult.failed => (useFallbackRates m, [baseUrl ++ m.baseCurrency]) := by
  unfold updateExchangeRates
  cases hl : m.lastUpdate with
  | none => simp
  | some t =>
    have := hstale t hl
    have h2 : ¬ (now - 86400000 < t) := by omega
    simp [h2]

/-! ## Conversion -/

/-- C1. Triangulation: between two distinct non-base currencies that both have a
non-zero rate in a non-empty table, `convertCurrency` returns `(a / rate[X]) * rate[Y]`
rounded half-up to 2 decimal places. -/
theorem convertCurrency_triangulates (m : CurrencyManager) (a : ℚ) (X Y : String)
    (rX rY : ℚ) (ha : 0 ≤ a) (hne : m.exchangeRates ≠ []) (hXY : X ≠ Y)
    (hXB : X ≠ m.baseCurrency) (hYB : Y ≠ m.baseCurrency)
    (hX : m.exchangeRates.lookup X = some rX) (hY : m.exchangeRates.lookup Y = some rY)
    (hrX : rX ≠ 0) (hrY : rY ≠ 0) :
    (convertCurrency m a X Y).1 = (⌊(a / rX) * rY * 100 + 1 / 2⌋ : ℚ) / 100 := by
  simp [convertCurrency, hXY, hne, hXB, hYB, rateOrOne_of_lookup hX hrX,
    rateOrOne_of_lookup hY hrY, mathRound]

/-- Witness for C1: 100 EUR to JPY on base USD with EUR at 0.85 and JPY at 110 gives
12941.18. -/
theorem convertCurrency_triangulates_witness :
    (convertCurrency (ofTable "USD" [("EUR", 0.85), ("JPY", 110)]) 100 "EUR" "JPY").1
      = 12941.18 := by
  have h := convertCurrency_triangulates (ofTable "USD" [("EUR", 0.85), ("JPY", 110)])
    100 "EUR" "JPY" 0.85 110 (by norm_num) (by simp [ofTable]) (by decide)
    (by simp [ofTable]) (by simp [ofTable]) (by simp [ofTable, List.lookup])
    (by simp [ofTable, List.lookup]) (by norm_num) (by norm_num)
  have hf : ⌊((100 : ℚ) / 0.85) * 110 * 100 + 1 / 2⌋ = 1294118 := by
    rw [Int.floor_eq_iff]; norm_num
  rw [h, hf]; norm_num

/-- C2. From the base currency to a different currency with a non-zero rate in a
non-empty table, `convertCurrency` returns `a * rate[Y]` rounded half-up to 2 decimal
places; 100 USD to EUR with table `{EUR: 0.85}` and base USD is 85.00. -/
theorem convertCurrency_from_base :
    (∀ (m : CurrencyManager) (a : ℚ) (Y : String) (rY : ℚ), 0 ≤ a →
      m.exchangeRates ≠ [] → Y ≠ m.baseCurrency →
      m.exchangeRates.lookup Y = some rY → rY ≠ 0 →
      (convertCurrency m a m.baseCurrency Y).1 = (⌊a * rY * 100 + 1 / 2⌋ : ℚ) / 100) ∧
    (∀ m : CurrencyManager, m.baseCurrency = "USD" → m.exchangeRates = [("EUR", 0.85)] →
      (convertCurrency m 100 "USD" "EUR").1 = 85) := by
  have gen : ∀ (m : CurrencyManager) (a : ℚ) (Y : String) (rY : ℚ), 0 ≤ a →
      m.exchangeRates ≠ [] → Y ≠ m.baseCurrency →
      m.exchangeRates.lookup Y = some rY → rY ≠ 0 →
      (convertCurrency m a m.baseCurrency Y).1 = (⌊a * rY * 100 + 1 / 2⌋ : ℚ) / 100 := by
    intro m a Y rY _ hne hYB hY hrY
    simp [convertCurrency, Ne.symm hYB, hne, rateOrOne_of_lookup hY hrY, mathRound]
  refine ⟨gen, ?_⟩
  intro m hb ht
  have h := gen m 100 "EUR" 0.85 (by norm_num) (by simp [ht]) (by simp [hb])
    (by simp [ht, List.lookup]) (by norm_num)
  have hf : ⌊(100 : ℚ) * 0.85 * 100 + 1 / 2⌋ = 8500 := by
    rw [Int.floor_eq_iff]; norm_num
  rw [hb] at h
  rw [h, hf]; norm_num

/-- Witness for C2: 20 USD to THB on base USD with THB at 33.5 gives 670. -/
theorem convertCurrency_from_base_witness :
    (convertCurrency (ofTable "USD" [("EUR", 0.85), ("THB", 33.5)]) 20 "USD" "THB").1
      = 670 := by
  have h := convertCurrency_from_base.1 (ofTable "USD" [("EUR", 0.85), ("THB", 33.5)])
    20 "THB" 33.5 (by norm_num) (by simp [ofTable]) (by simp [ofTable])
    (by simp [ofTable, List.lookup]) (by norm_num)
  have hf : ⌊(20 : ℚ) * 33.5 * 100 + 1 / 2⌋ = 67000 := by
    rw [Int.floor_eq_iff]; norm_num
  have hb : (ofTable "USD" [("EUR", 0.85), ("THB", 33.5)]).baseCurrency = "USD" := rfl
  rw [hb] at h
  rw [h, hf]; norm_num

/-- C3. From a currency with a non-zero rate in a non-empty table to the (different)
base currency, `convertCurrency` returns `a / rate[X]` rounded half-up to 2 decimal
places; 100 EUR to USD with table `{EUR: 0.85}` and base USD is 117.65. -/
theorem convertCurrency_to_base :
    (∀ (m : CurrencyManager) (a : ℚ) (X : String) (rX : ℚ), 0 ≤ a →
      m.exchangeRates ≠ [] → X ≠ m.baseCurrency →
      m.exchangeRates.lookup X = some rX → rX ≠ 0 →
      (convertCurrency m a X m.baseCurrency).1 = (⌊a / rX * 100 + 1 / 2⌋ : ℚ) / 100) ∧
    (∀ m : CurrencyManager, m.baseCurrency = "USD" → m.exchangeRates = [("EUR", 0.85)] →
      (convertCurrency m 100 "EUR" "USD").1 = 117.65) := by
  have gen : ∀ (m : CurrencyManager) (a : ℚ) (X : String) (rX : ℚ), 0 ≤ a →
      m.exchangeRates ≠ [] → X ≠ m.baseCurrency →
      m.exchangeRates.lookup X = some rX → rX ≠ 0 →
      (convertCurrency m a X m.baseCurrency).1 = (⌊a / rX * 100 + 1 / 2⌋ : ℚ) / 100 := by
    intro m a X rX _ hne hXB hX hrX
    simp [convertCurrency, hXB, hne, rateOrOne_of_lookup hX hrX, mathRound]
  refine ⟨gen, ?_⟩
  intro m hb ht
  have h := gen m 100 "EUR" 0.85 (by norm_num) (by simp [ht]) (by simp [hb])
    (by simp [ht, List.lookup]) (by norm_num)
  have hf : ⌊(100 : ℚ) / 0.85 * 100 + 1 / 2⌋ = 11765 := by
    rw [Int.floor_eq_iff]; norm_num
  rw [hb] at h
  rw [h, hf]; norm_num

/-- Witness for C3: 335 THB to USD on base USD with THB at 33.5 gives 10. -/
theorem convertCurrency_to_base_witness :
    (convertCurrency (ofTable "USD" [("EUR", 0.85), ("THB", 33.5)]) 335 "THB" "USD").1
      = 10 := by
  have h := convertCurrency_to_base.1 (ofTable "USD" [("EUR", 0.85), ("THB", 33.5)])
    335 "THB" 33.5 (by norm_num) (by simp [ofTable]) (by simp [ofTable])
    (by simp [ofTable, List.lookup]) (by norm_num)
  have hf : ⌊(335 : ℚ) / 33.5 * 100 + 1 / 2⌋ = 1000 := by
    rw [Int.floor_eq_iff]; norm_num
  have hb : (ofTable "USD" [("EUR", 0.85), ("THB", 33.5)]).baseCurrency = "USD" := rfl
  rw [hb] at h
  rw [h, hf]; norm_num

/-- C4. Converting an amount to its own currency returns exactly that amount, for every
amount, currency, base currency and rate table (the empty table included), and leaves
the manager as it was. -/
theorem convertCurrency_same_currency (m : CurrencyManager) (a : ℚ) (X : String) :
    (convertCurrency m a X X).1 = a ∧ (convertCurrency m a X X).2 = m := by
  simp [convertCurrency]

theorem useFallbackRates_USD :
    useFallbackRates (ofTable "USD" []) = ofTable "USD"
      [("EUR", 0.85), ("GBP", 0.73), ("THB", 33.5), ("JPY", 110), ("CAD", 1.25),
        ("AUD", 1.35), ("CHF", 0.92), ("USD", 1)] := by
  simp [useFallbackRates, ofTable, fallbackRates, setRate]

/-- C5, as stated, fails. On the fallback table for base USD (all rates positive, JPY at
110), 100 JPY becomes 0.91 USD and 0.91 USD becomes 100.10 JPY: the round trip is off by
0.10, more than 0.01. -/
theorem convertCurrency_roundtrip_counterexample :
    (0 : ℚ) ≤ 100 ∧
    (∀ p ∈ (useFallbackRates (ofTable "USD" [])).exchangeRates, 0 < p.2) ∧
    (convertCurrency (useFallbackRates (ofTable "USD" [])) 100 "JPY" "USD").1 = 0.91 ∧
    roundTrip (useFallbackRates (ofTable "USD" [])) 100 "JPY" "USD" = 100.1 ∧
    ¬ |roundTrip (useFallbackRates (ofTable "USD" [])) 100 "JPY" "USD" - 100| ≤ 0.01 := by
  have h1 : (convertCurrency (useFallbackRates (ofTable "USD" [])) 100 "JPY" "USD")
      = (0.91, useFallbackRates (ofTable "USD" [])) := by
    rw [useFallbackRates_USD]
    have hf : ⌊(100 : ℚ) / 110 * 100 + 1 / 2⌋ = 91 := by
      rw [Int.floor_eq_iff]; norm_num
    simp [convertCurrency, ofTable, rateOrOne, List.lookup, mathRound, hf]
    norm_num
  have h2 : roundTrip (useFallbackRates (ofTable "USD" [])) 100 "JPY" "USD" = 100.1 := by
    simp only [roundTrip, h1]
    rw [useFallbackRates_USD]
    have hf : ⌊(0.91 : ℚ) * 110 * 100 + 1 / 2⌋ = 10010 := by
      rw [Int.floor_eq_iff]; norm_num
    simp [convertCurrency, ofTable, rateOrOne, List.lookup, mathRound, hf]
    norm_num
  refine ⟨by norm_num, ?_, by rw [h1], h2, ?_⟩
  · rw [useFallbackRates_USD]
    intro p hp
    simp [ofTable] at hp
    rcases hp with hp | hp | hp | hp | hp | hp | hp | hp <;> subst hp <;> norm_num
  · rw [h2]; norm_num [abs_le]

/-- C5, amended. For every amount `a ≥ 0`, currencies `X`, `Y` and table with positive
rates, the round trip `convert(convert(a, X, Y), Y, X)` differs from `a` by at most
`0.005 + 0.005 / r`, where `r` is the rate from `X` to `Y` that `getExchangeRate`
reports; hence by at most 0.01 whenever `r ≥ 1`. -/
theorem convertCurrency_roundtrip_bound (m : CurrencyManager) (a : ℚ) (X Y : String)
    (ha : 0 ≤ a) (hpos : ∀ p ∈ m.exchangeRates, 0 < p.2) :
    |roundTrip m a X Y - a| ≤
        1 / 200 + 1 / 200 / getExchangeRate (convertCurrency m a X Y).2 X Y ∧
    (1 ≤ getExchangeRate (convertCurrency m a X Y).2 X Y →
      |roundTrip m a X Y - a| ≤ 1 / 100) := by
  have hr : 0 < getExchangeRate (convertCurrency m a X Y).2 X Y :=
    getExchangeRate_pos _ X Y (convertCurrency_snd_pos m a X Y hpos)
  have main : |roundTrip m a X Y - a| ≤
      1 / 200 + 1 / 200 / getExchangeRate (convertCurrency m a X Y).2 X Y := by
    by_cases hXY : X = Y
    · subst hXY
      have h0 : roundTrip m a X X = a := by simp [roundTrip, convertCurrency]
      rw [h0, sub_self, abs_zero]
      positivity
    · have hYX : Y ≠ X := fun h => hXY h.symm
      have hb := convertCurrency_fst m a hXY
      have hc := convertCurrency_fst (convertCurrency m a X Y).2 (convertCurrency m a X Y).1 hYX
      rw [convertCurrency_snd_idem m a _ hXY hYX, getExchangeRate_swap _ X Y] at hc
      have hrt : roundTrip m a X Y
          = (convertCurrency (convertCurrency m a X Y).2 (convertCurrency m a X Y).1 Y X).1 :=
        rfl
      rw [← hrt] at hc
      generalize getExchangeRate (convertCurrency m a X Y).2 X Y = r at hr hb hc ⊢
      generalize (convertCurrency m a X Y).1 = b at hb hc
      have e1 := round2_error (b * (1 / r))
      rw [← hc] at e1
      have e2 := round2_error (a * r)
      rw [← hb] at e2
      have e3 : |b * (1 / r) - a| ≤ 1 / 200 / r := by
        have : b * (1 / r) - a = (b - a * r) / r := by
          field_simp; ring
        rw [this, abs_div, abs_of_pos hr]
        exact div_le_div_of_nonneg_right e2 hr.le
      calc |roundTrip m a X Y - a|
          = |(roundTrip m a X Y - b * (1 / r)) + (b * (1 / r) - a)| := by ring_nf
        _ ≤ |roundTrip m a X Y - b * (1 / r)| + |b * (1 / r) - a| := abs_add _ _
        _ ≤ 1 / 200 + 1 / 200 / r := add_le_add e1 e3
  refine ⟨main, fun h1 => ?_⟩
  have : 1 / 200 / getExchangeRate (convertCurrency m a X Y).2 X Y ≤ 1 / 200 := by
    apply div_le_self (by norm_num) h1
  linarith

/-- Witness for C5: 100 EUR to USD and back on base USD with EUR at 0.85 (rate 1/0.85,
above 1) stays within 0.01 of 100. -/
theorem convertCurrency_roundtrip_bound_witness :
    |roundTrip (ofTable "USD" [("EUR", 0.85)]) 100 "EUR" "USD" - 100| ≤ 1 / 100 :=
  (convertCurrency_roundtrip_bound (ofTable "USD" [("EUR", 0.85)]) 100 "EUR" "USD"
    (by norm_num) (by simp [ofTable]; norm_num)).2
    (by simp [convertCurrency, getExchangeRate, ofTable, rateOrOne, List.lookup]; norm_num)

/-- C6, as stated, fails when source and target coincide: 0.005 USD converted to USD is
returned unrounded, and 0.005 * 100 = 0.5 is not an integer. -/
theorem convertCurrency_cents_counterexample :
    (0 : ℚ) ≤ 0.005 ∧
    ¬ ∃ n : ℤ, (convertCurrency (ofTable "USD" [("EUR", 0.85)]) 0.005 "USD" "USD").1 * 100
        = (n : ℚ) := by
  refine ⟨by norm_num, ?_⟩
  rintro ⟨n, hn⟩
  have h1 : (convertCurrency (ofTable "USD" [("EUR", 0.85)]) 0.005 "USD" "USD").1 = 0.005 := by
    simp [convertCurrency]
  rw [h1] at hn
  have h2 : ((2 * n : ℤ) : ℚ) = ((1 : ℤ) : ℚ) := by
    push_cast; rw [← hn]; norm_num
  have h3 : 2 * n = 1 := by exact_mod_cast h2
  omega

/-- C6, amended. For every amount `a ≥ 0` and every pair of distinct currencies, the
returned value times 100 is an integer `n`, and `n` is the half-up rounding of the
unrounded product times 100: `n - 1/2 ≤ a * r * 100 < n + 1/2` with `r` the rate from
source to target. -/
theorem convertCurrency_cents (m : CurrencyManager) (a : ℚ) (X Y : String)
    (ha : 0 ≤ a) (hXY : X ≠ Y) :
    ∃ n : ℤ, (convertCurrency m a X Y).1 * 100 = (n : ℚ) ∧
      (n : ℚ) - 1 / 2 ≤ a * getExchangeRate (convertCurrency m a X Y).2 X Y * 100 ∧
      a * getExchangeRate (convertCurrency m a X Y).2 X Y * 100 < (n : ℚ) + 1 / 2 := by
  refine ⟨⌊a * getExchangeRate (convertCurrency m a X Y).2 X Y * 100 + 1 / 2⌋, ?_, ?_, ?_⟩
  · rw [convertCurrency_fst m a hXY]
    norm_num
  · have := Int.floor_le (a * getExchangeRate (convertCurrency m a X Y).2 X Y * 100 + 1 / 2)
    linarith
  · have := Int.lt_floor_add_one
      (a * getExchangeRate (convertCurrency m a X Y).2 X Y * 100 + 1 / 2)
    linarith

/-- Witness for C6: 100 EUR to USD on base USD with EUR at 0.85. -/
theorem convertCurrency_cents_witness :
    ∃ n : ℤ, (convertCurrency (ofTable "USD" [("EUR", 0.85)]) 100 "EUR" "USD").1 * 100
        = (n : ℚ) ∧
      (n : ℚ) - 1 / 2 ≤ 100 * getExchangeRate
        (convertCurrency (ofTable "USD" [("EUR", 0.85)]) 100 "EUR" "USD").2 "EUR" "USD" * 100 ∧
      100 * getExchangeRate
        (convertCurrency (ofTable "USD" [("EUR", 0.85)]) 100 "EUR" "USD").2 "EUR" "USD" * 100
        < (n : ℚ) + 1 / 2 :=
  convertCurrency_cents (ofTable "USD" [("EUR", 0.85)]) 100 "EUR" "USD" (by norm_num)
    (by decide)

/-- C7. A missing rate is never an error: the divisor `rate || 1` is never zero, a
currency with no entry in the table reads as rate 1, and from the base currency to a
currency absent from a non-empty table the result is `a` rounded half-up to 2 decimal
places. -/
theorem convertCurrency_missing_rate :
    (∀ (t : Rates) (c : String), rateOrOne t c ≠ 0) ∧
    (∀ (t : Rates) (c : String), t.lookup c = none → rateOrOne t c = 1) ∧
    (∀ (m : CurrencyManager) (a : ℚ) (Y : String), m.exchangeRates ≠ [] →
      Y ≠ m.baseCurrency → m.exchangeRates.lookup Y = none →
      (convertCurrency m a m.baseCurrency Y).1 = (⌊a * 100 + 1 / 2⌋ : ℚ) / 100) := by
  refine ⟨rateOrOne_ne_zero, fun t c h => rateOrOne_of_absent h, ?_⟩
  intro m a Y hne hYB hY
  simp [convertCurrency, Ne.symm hYB, hne, rateOrOne_of_absent hY, mathRound]

/-- Witness for C7: 12.345 USD to CNY on base USD with a table that has no CNY entry
gives 12.35. -/
theorem convertCurrency_missing_rate_witness :
    (convertCurrency (ofTable "USD" [("EUR", 0.85)]) 12.345 "USD" "CNY").1 = 12.35 := by
  have h := convertCurrency_missing_rate.2.2 (ofTable "USD" [("EUR", 0.85)]) 12.345 "CNY"
    (by simp [ofTable]) (by simp [ofTable]) (by simp [ofTable, List.lookup])
  have hf : ⌊(12.345 : ℚ) * 100 + 1 / 2⌋ = 1235 := by
    rw [Int.floor_eq_iff]; norm_num
  have hb : (ofTable "USD" [("EUR", 0.85)]).baseCurrency = "USD" := rfl
  rw [hb] at h
  rw [h, hf]; norm_num

/-- C8, as stated, fails. With an empty table and base USD, converting 1 USD to EUR
loads the fallback table: the table after the call is not the table before it. -/
theorem convertCurrency_frame_counterexample :
    (ofTable "USD" []).exchangeRates = [] ∧
    (convertCurrency (ofTable "USD" []) 1 "USD" "EUR").2.exchangeRates
      = [("EUR", 0.85), ("GBP", 0.73), ("THB", 33.5), ("JPY", 110), ("CAD", 1.25),
          ("AUD", 1.35), ("CHF", 0.92), ("USD", 1)] ∧
    (convertCurrency (ofTable "USD" []) 1 "USD" "EUR").2.exchangeRates
      ≠ (ofTable "USD" []).exchangeRates := by
  have h : (convertCurrency (ofTable "USD" []) 1 "USD" "EUR").2
      = useFallbackRates (ofTable "USD" []) := by
    rw [convertCurrency_snd _ _ (by decide)]
    simp [ofTable]
  rw [h, useFallbackRates_USD]
  simp [ofTable]

/-- C8, amended. `convertCurrency` leaves the manager (rate table included) as it was
whenever source and target coincide, or the table is non-empty, or the base currency has
no fallback row; between distinct currencies on an empty table the manager afterwards is
the one `useFallbackRates` produces. The returned number depends only on the amount, the
two currencies, the base currency and the rate table. -/
theorem convertCurrency_frame (m : CurrencyManager) (a : ℚ) (X Y : String) :
    ((X = Y ∨ m.exchangeRates ≠ [] ∨ fallbackRates m.baseCurrency = none) →
      (convertCurrency m a X Y).2 = m) ∧
    (X ≠ Y → m.exchangeRates = [] → (convertCurrency m a X Y).2 = useFallbackRates m) ∧
    (∀ m2 : CurrencyManager, m2.baseCurrency = m.baseCurrency →
      m2.exchangeRates = m.exchangeRates →
      (convertCurrency m2 a X Y).1 = (convertCurrency m a X Y).1) := by
  refine ⟨?_, ?_, ?_⟩
  · intro h
    by_cases hXY : X = Y
    · simp [convertCurrency, hXY]
    · rw [convertCurrency_snd m a hXY]
      rcases h with h | h | h
      · exact absurd h hXY
      · simp [h]
      · split_ifs
        · simp [useFallbackRates, h]
        · rfl
  · intro hXY he
    rw [convertCurrency_snd m a hXY]
    simp [he]
  · intro m2 hb ht
    obtain ⟨b, t, lu, c1, c2⟩ := m
    obtain ⟨b2, t2, lu2, d1, d2⟩ := m2
    simp only at hb ht
    subst hb ht
    by_cases hXY : X = Y
    · simp [convertCurrency, hXY]
    · by_cases he : t2 = []
      · cases hf : fallbackRates b2 <;>
          simp [convertCurrency, useFallbackRates, hXY, he, hf]
      · simp [convertCurrency, hXY, he]

/-- Witness for C8: on the non-empty table `{EUR: 0.85}` a conversion from USD to EUR
leaves the manager unchanged. -/
theorem convertCurrency_frame_witness :
    (convertCurrency (ofTable "USD" [("EUR", 0.85)]) 100 "USD" "EUR").2
      = ofTable "USD" [("EUR", 0.85)] :=
  (convertCurrency_frame (ofTable "USD" [("EUR", 0.85)]) 100 "USD" "EUR").1
    (Or.inr (Or.inl (by simp [ofTable])))

/-! ## Refreshing the rate table -/

/-- C9, as stated, fails for a base currency without a fallback row. With base CNY, the
table `{USD: 0.14}` and a request that fails, the request is made, and afterwards the
table is still `{USD: 0.14}`: the previous entry survives and CNY has no rate 1. -/
theorem updateExchangeRates_fallback_counterexample :
    fallbackRates "CNY" = none ∧
    (updateExchangeRates (ofTable "CNY" [("USD", 0.14)]) 0 (fun _ => FetchResult.failed) 0).2
      = [baseUrl ++ "CNY"] ∧
    (updateExchangeRates (ofTable "CNY" [("USD", 0.14)]) 0
      (fun _ => FetchResult.failed) 0).1.exchangeRates = [("USD", 0.14)] ∧
    (updateExchangeRates (ofTable "CNY" [("USD", 0.14)]) 0
      (fun _ => FetchResult.failed) 0).1.exchangeRates.lookup "CNY" ≠ some 1 := by
  have hf : fallbackRates "CNY" = none := by simp [fallbackRates]
  have h : updateExchangeRates (ofTable "CNY" [("USD", 0.14)]) 0
      (fun _ => FetchResult.failed) 0
      = (ofTable "CNY" [("USD", 0.14)], [baseUrl ++ "CNY"]) := by
    simp [updateExchangeRates, useFallbackRates, ofTable, hf]
  rw [h]
  refine ⟨hf, rfl, rfl, ?_⟩
  simp [ofTable, List.lookup]

/-- C9, amended. When the request is attempted and fails, `updateExchangeRates` returns
and issues that one request; for a base currency that has a row in the hard-coded
fallback table, the rate table afterwards is exactly that row followed by the base
currency at rate 1 (no entry of the previous table survives); for any other base currency
the rate table is left as it was. `lastUpdate` is unchanged in both cases. -/
theorem updateExchangeRates_fetch_failed (m : CurrencyManager) (now : Int)
    (fetch : String → FetchResult) (now2 : Int)
    (hstale : ∀ t, m.lastUpdate = some t → t ≤ now - 24 * 60 * 60 * 1000)
    (hfail : fetch (baseUrl ++ m.baseCurrency) = FetchResult.failed) :
    (updateExchangeRates m now fetch now2).2 = [baseUrl ++ m.baseCurrency] ∧
    (∀ row, fallbackRates m.baseCurrency = some row →
      (updateExchangeRates m now fetch now2).1.exchangeRates = row ++ [(m.baseCurrency, 1)] ∧
      (updateExchangeRates m now fetch now2).1.exchangeRates.lookup m.baseCurrency
        = some 1) ∧
    (fallbackRates m.baseCurrency = none →
      (updateExchangeRates m now fetch now2).1.exchangeRates = m.exchangeRates) ∧
    (updateExchangeRates m now fetch now2).1.lastUpdate = m.lastUpdate := by
  rw [updateExchangeRates_of_stale m now fetch now2 hstale, hfail]
  refine ⟨rfl, ?_, ?_, ?_⟩
  · intro row hrow
    have h1 : (useFallbackRates m).exchangeRates = row ++ [(m.baseCurrency, 1)] := by
      simp [useFallbackRates, hrow, setRate_fallbackRates hrow]
    refine ⟨h1, ?_⟩
    rw [h1]
    exact lookup_fallbackRates hrow
  · intro hnone
    simp [useFallbackRates, hnone]
  · simp only [useFallbackRates]
    split <;> rfl

/-- Witness for C9: base EUR with the table `{USD: 2}` and a failing request ends on
the EUR fallback row followed by EUR at 1. -/
theorem updateExchangeRates_fetch_failed_witness :
    (updateExchangeRates (ofTable "EUR" [("USD", 2)]) 0
      (fun _ => FetchResult.failed) 0).1.exchangeRates
      = [("USD", 1.18), ("GBP", 0.86), ("THB", 39.4), ("JPY", 129.5), ("CAD", 1.47),
          ("AUD", 1.59), ("CHF", 1.08), ("EUR", 1)] :=
  ((updateExchangeRates_fetch_failed (ofTable "EUR" [("USD", 2)]) 0
    (fun _ => FetchResult.failed) 0 (by simp [ofTable]) rfl).2.1 _ rfl).1

/-- C10. `updateExchangeRates` issues no request exactly when `lastUpdate` is present
and less than 24 hours before the current time, and then leaves the manager (rate table
and `lastUpdate` included) as it was; when `lastUpdate` is absent or at least 24 hours
old it issues one request for the base currency; `forceUpdateRates` always issues that
request. -/
theorem updateExchangeRates_skip_iff (m : CurrencyManager) (now : Int)
    (fetch : String → FetchResult) (now2 : Int) :
    ((updateExchangeRates m now fetch now2).2 = [] ↔
      ∃ t, m.lastUpdate = some t ∧ now - t < 24 * 60 * 60 * 1000) ∧
    ((∃ t, m.lastUpdate = some t ∧ now - t < 24 * 60 * 60 * 1000) →
      (updateExchangeRates m now fetch now2).1 = m) ∧
    ((m.lastUpdate = none ∨ ∃ t, m.lastUpdate = some t ∧ 24 * 60 * 60 * 1000 ≤ now - t) →
      (updateExchangeRates m now fetch now2).2 = [baseUrl ++ m.baseCurrency]) ∧
    (forceUpdateRates m now fetch now2).2 = [baseUrl ++ m.baseCurrency] := by
  have hskip : (∃ t, m.lastUpdate = some t ∧ now - t < 24 * 60 * 60 * 1000) →
      updateExchangeRates m now fetch now2 = (m, []) := by
    rintro ⟨t, ht, hlt⟩
    have h2 : ¬ (t ≤ now - 86400000) := by omega
    simp [updateExchangeRates, ht, h2]
  have hgo : ∀ (m0 : CurrencyManager),
      (∀ t, m0.lastUpdate = some t → t ≤ now - 24 * 60 * 60 * 1000) →
      (updateExchangeRates m0 now fetch now2).2 = [baseUrl ++ m0.baseCurrency] := by
    intro m0 h0
    rw [updateExchangeRates_of_stale m0 now fetch now2 h0]
    split <;> rfl
  refine ⟨⟨?_, fun h => by rw [hskip h]⟩, fun h => by rw [hskip h], ?_, ?_⟩
  · intro hnil
    by_contra hno
    have hstale : ∀ t, m.lastUpdate = some t → t ≤ now - 24 * 60 * 60 * 1000 := by
      intro t ht
      by_contra hlt
      exact hno ⟨t, ht, by omega⟩
    rw [hgo m hstale] at hnil
    simp at hnil
  · intro h
    apply hgo
    intro t ht
    rcases h with h | ⟨t2, ht2, hle⟩
    · rw [h] at ht; cases ht
    · rw [ht2] at ht; cases ht; omega
  · exact hgo { m with lastUpdate := none } (by simp)

/-- Witness for C10: one hour after an update at time 0 the call requests nothing and
leaves the manager unchanged. -/
theorem updateExchangeRates_skip_iff_witness :
    (updateExchangeRates { ofTable "USD" [("EUR", 0.85)] with lastUpdate := some 0 } 3600000
      (fun _ => FetchResult.failed) 3600001).1
      = { ofTable "USD" [("EUR", 0.85)] with lastUpdate := some 0 } :=
  (updateExchangeRates_skip_iff { ofTable "USD" [("EUR", 0.85)] with lastUpdate := some 0 }
    3600000 (fun _ => FetchResult.failed) 3600001).2.1 ⟨0, rfl, by norm_num⟩

end CurrencyManager

/-! # Calendar and todo planner: theorems -/

namespace JsDate

/-! ## Calendar arithmetic -/

theorem dayFromYear_succ (y : Int) :
    dayFromYear (y + 1) = dayFromYear y + (if inLeapYear y then 366 else 365) := by
  unfold dayFromYear inLeapYear
  split_ifs with h <;> simp at h <;> omega

/-- The year computed by `yearFromDay` is the one whose days contain `n`. -/
theorem yearFromDay_spec (n : Int) :
    dayFromYear (yearFromDay n) ≤ n ∧ n < dayFromYear (yearFromDay n + 1) := by
  unfold yearFromDay
  simp only
  split_ifs with h1 h2
  · refine ⟨h1, ?_⟩
    unfold dayFromYear at *
    omega
  · exact ⟨h2, by simpa using h1⟩
  · simp only [sub_add_cancel]
    refine ⟨?_, by simpa using h2⟩
    unfold dayFromYear at *
    omega

theorem dayFromYear_mono {a b : Int} (h : a ≤ b) : dayFromYear a ≤ dayFromYear b := by
  unfold dayFromYear
  omega

theorem yearFromDay_unique {n y : Int} (h1 : dayFromYear y ≤ n)
    (h2 : n < dayFromYear (y + 1)) : yearFromDay n = y := by
  obtain ⟨s1, s2⟩ := yearFromDay_spec n
  by_contra hne
  rcases lt_or_gt_of_ne hne with h | h
  · have := dayFromYear_mono (show yearFromDay n + 1 ≤ y by omega)
    omega
  · have := dayFromYear_mono (show y + 1 ≤ yearFromDay n by omega)
    omega

theorem makeDay_of_month {y m : Int} (h0 : 0 ≤ m) (h11 : m ≤ 11) (d : Int) :
    makeDay y m d = dayFromYear y + monthStart (inLeapYear y) m + d - 1 := by
  have e1 : m / 12 = 0 := by omega
  have e2 : m % 12 = m := by omega
  simp [makeDay, e1, e2]

theorem makeDay_normalize (y m d : Int) :
    makeDay y m d = makeDay (y + m / 12) (m % 12) d := by
  have e1 : m % 12 / 12 = 0 := by omega
  have e2 : m % 12 % 12 = m % 12 := by omega
  simp [makeDay, e1, e2]

theorem month_cases {m : Int} (h0 : 0 ≤ m) (h11 : m ≤ 11) :
    m = 0 ∨ m = 1 ∨ m = 2 ∨ m = 3 ∨ m = 4 ∨ m = 5 ∨ m = 6 ∨ m = 7 ∨ m = 8 ∨
      m = 9 ∨ m = 10 ∨ m = 11 := by
  omega

theorem monthStart_succ {m : Int} (h0 : 0 ≤ m) (h11 : m ≤ 11) (y : Int) :
    monthStart (inLeapYear y) (m + 1) = monthStart (inLeapYear y) m + daysInMonth y m := by
  rcases month_cases h0 h11 with h | h | h | h | h | h | h | h | h | h | h | h <;>
    subst h <;> cases hy : inLeapYear y <;> simp [monthStart, daysInMonth, hy]

theorem daysInMonth_bounds (y m : Int) : 28 ≤ daysInMonth y m ∧ daysInMonth y m ≤ 31 := by
  unfold daysInMonth
  split_ifs <;> omega

/-- Reading back a day built from a valid year, month and day of the month. -/
theorem civil_of_makeDay {y m d : Int} (h0 : 0 ≤ m) (h11 : m ≤ 11) (hd1 : 1 ≤ d)
    (hd2 : d ≤ daysInMonth y m) :
    yearFromDay (makeDay y m d) = y ∧ monthFromDay (makeDay y m d) = m ∧
      dateFromDay (makeDay y m d) = d := by
  have hm := month_cases h0 h11
  have hy : yearFromDay (makeDay y m d) = y := by
    rw [makeDay_of_month h0 h11]
    apply yearFromDay_unique
    · rcases hm with h | h | h | h | h | h | h | h | h | h | h | h <;> subst h <;>
        cases hl : inLeapYear y <;> simp [monthStart, daysInMonth, hl] at hd2 ⊢ <;> omega
    · rw [dayFromYear_succ]
      rcases hm with h | h | h | h | h | h | h | h | h | h | h | h <;> subst h <;>
        cases hl : inLeapYear y <;> simp [monthStart, daysInMonth, hl] at hd2 ⊢ <;> omega
  have hmo : monthFromDay (makeDay y m d) = m := by
    unfold monthFromDay monthOfYearDay
    rw [hy, makeDay_of_month h0 h11]
    rcases hm with h | h | h | h | h | h | h | h | h | h | h | h <;> subst h <;>
      cases hl : inLeapYear y <;> simp [monthStart, daysInMonth, hl] at hd2 ⊢ <;> omega
  refine ⟨hy, hmo, ?_⟩
  unfold dateFromDay
  rw [hmo, hy, makeDay_of_month h0 h11]
  dsimp only
  omega

/-- The same for a month index that carries into the next or previous year. -/
theorem civil_of_makeDay_carry {y m d : Int} (hd1 : 1 ≤ d)
    (hd2 : d ≤ daysInMonth (y + m / 12) (m % 12)) :
    yearFromDay (makeDay y m d) = y + m / 12 ∧ monthFromDay (makeDay y m d) = m % 12 ∧
      dateFromDay (makeDay y m d) = d := by
  rw [makeDay_normalize]
  exact civil_of_makeDay (by omega) (by omega) hd1 hd2

theorem makeDay_add (y m d k : Int) : makeDay y m (d + k) = makeDay y m d + k := by
  unfold makeDay
  dsimp only
  omega

/-- Day `d` of the month after `m` is day `d + daysInMonth y m` counted from `m`. -/
theorem makeDay_succ_month {y m : Int} (h0 : 0 ≤ m) (h11 : m ≤ 11) (d : Int) :
    makeDay y (m + 1) d = makeDay y m (d + daysInMonth y m) := by
  by_cases h : m = 11
  · subst h
    have e : makeDay y (11 + 1) d = makeDay (y + 1) 0 d := by
      rw [makeDay_normalize]; norm_num
    rw [e, makeDay_of_month (le_refl 0) (by norm_num), makeDay_of_month (by norm_num) (le_refl 11),
      dayFromYear_succ]
    cases hl : inLeapYear y <;> cases hl2 : inLeapYear (y + 1) <;>
      simp [monthStart, daysInMonth] <;> omega
  · rw [makeDay_of_month (by omega) (by omega), makeDay_of_month h0 h11, monthStart_succ h0 h11]
    omega

/-- Day 0 of the following month is the last day of month `m`: this is how `renderDays`
and `getDaysInMonth` read the length of a month. -/
theorem dateFromDay_lastDay {y m : Int} (h0 : 0 ≤ m) (h11 : m ≤ 11) :
    dateFromDay (makeDay y (m + 1) 0) = daysInMonth y m := by
  rw [makeDay_succ_month h0 h11, zero_add]
  exact (civil_of_makeDay h0 h11 (by have := daysInMonth_bounds y m; omega) (le_refl _)).2.2

theorem makeDay_succ_month_carry (y a d : Int) :
    makeDay y (a + 1) d = makeDay y a (d + daysInMonth (y + a / 12) (a % 12)) := by
  rw [makeDay_normalize y a, ← makeDay_succ_month (by omega) (by omega)]
  have e1 : (a + 1) / 12 = a / 12 + (a % 12 + 1) / 12 := by omega
  have e2 : (a + 1) % 12 = (a % 12 + 1) % 12 := by omega
  unfold makeDay
  dsimp only
  rw [e1, e2, ← add_assoc]

/-- Day 0 of month `a + 1` is the last day of month `a`, for any month index. -/
theorem dateFromDay_lastDay_carry (y a : Int) :
    dateFromDay (makeDay y (a + 1) 0) = daysInMonth (y + a / 12) (a % 12) := by
  rw [makeDay_succ_month_carry, zero_add, makeDay_normalize]
  have hb := daysInMonth_bounds (y + a / 12) (a % 12)
  exact (civil_of_makeDay (by omega) (by omega) (by omega) (le_refl _)).2.2

theorem weekDay_bounds (n : Int) : 0 ≤ weekDay n ∧ weekDay n ≤ 6 := by
  unfold weekDay
  omega

theorem monthOfYearDay_bounds (leap : Bool) (d : Int) :
    0 ≤ monthOfYearDay leap d ∧ monthOfYearDay leap d ≤ 11 := by
  unfold monthOfYearDay
  dsimp only
  omega

theorem monthFromDay_bounds (n : Int) : 0 ≤ monthFromDay n ∧ monthFromDay n ≤ 11 :=
  monthOfYearDay_bounds _ _

/-- Setting the day of the month to the current one plus `k` moves the day by `k`. -/
theorem makeDay_civil_add (n k : Int) :
    makeDay (yearFromDay n) (monthFromDay n) (dateFromDay n + k) = n + k := by
  obtain ⟨h0, h11⟩ := monthFromDay_bounds n
  rw [makeDay_of_month h0 h11]
  unfold dateFromDay
  dsimp only
  omega

end JsDate

namespace Calender

open JsDate

set_option linter.unusedVariables false

namespace CalendarManager

/-! ## Calendar grid -/

/-- The cell `renderDays` builds at index `i`, with the month length and the weekday of
the first read off the calendar. -/
theorem renderDays_getElem (year month : Int) (h0 : 0 ≤ month) (h11 : month ≤ 11)
    {i : Nat} (hi : i < 42) :
    (renderDays year month)[i]? = some
      (if (i : Int) < weekDay (makeDay year month 1) then
        { date := makeDay year (month - 1)
            (dateFromDay (makeDay year (month - 1) 0) - weekDay (makeDay year month 1)
              + (i : Int) + 1),
          dayNumber := dateFromDay (makeDay year (month - 1) 0)
            - weekDay (makeDay year month 1) + (i : Int) + 1,
          isOtherMonth := true }
      else if (i : Int) < weekDay (makeDay year month 1) + daysInMonth year month then
        { date := makeDay year month ((i : Int) - weekDay (makeDay year month 1) + 1),
          dayNumber := (i : Int) - weekDay (makeDay year month 1) + 1,
          isOtherMonth := false }
      else
        { date := makeDay year (month + 1)
            ((i : Int) - weekDay (makeDay year month 1) - daysInMonth year month + 1),
          dayNumber := (i : Int) - weekDay (makeDay year month 1) - daysInMonth year month + 1,
          isOtherMonth := true }) := by
  unfold renderDays
  simp only [List.getElem?_map, List.getElem?_range hi, Option.map_some',
    dateFromDay_lastDay h0 h11]

/-- The cells before the first of the month. `renderDays` counts them back from the
length of the month two before the displayed one (`new Date(year, month - 1, 0)`), so the
cell at index `i < s` falls `s - i` days before the first of the month, shifted by the
difference between the lengths of the two preceding months. -/
theorem renderDays_leading (year month : Int) (i : Nat) (h0 : 0 ≤ month) (h11 : month ≤ 11)
    (hi : (i : Int) < weekDay (makeDay year month 1)) :
    ∃ c, (renderDays year month)[i]? = some c ∧ c.isOtherMonth = true ∧
      c.date = makeDay year month 1 - (weekDay (makeDay year month 1) - (i : Int))
        + (daysInMonth (year + (month - 2) / 12) ((month - 2) % 12)
            - daysInMonth (year + (month - 1) / 12) ((month - 1) % 12)) := by
  have hsb := weekDay_bounds (makeDay year month 1)
  have hi42 : i < 42 := by omega
  have hcell := renderDays_getElem year month h0 h11 hi42
  rw [if_pos hi] at hcell
  refine ⟨_, hcell, rfl, ?_⟩
  have hD : dateFromDay (makeDay year (month - 1) 0)
      = daysInMonth (year + (month - 2) / 12) ((month - 2) % 12) := by
    have := dateFromDay_lastDay_carry year (month - 2)
    rwa [show month - 2 + 1 = month - 1 by ring] at this
  have hprev : ∀ k, makeDay year (month - 1) k
      = makeDay year month 1
        + (k - daysInMonth (year + (month - 1) / 12) ((month - 1) % 12) - 1) := by
    intro k
    have := makeDay_succ_month_carry year (month - 1)
      (k - daysInMonth (year + (month - 1) / 12) ((month - 1) % 12))
    rw [show month - 1 + 1 = month by ring, sub_add_cancel] at this
    rw [← this, ← makeDay_add]
    congr 1
    ring
  show makeDay year (month - 1)
      (dateFromDay (makeDay year (month - 1) 0) - weekDay (makeDay year month 1)
        + (i : Int) + 1) = _
  rw [hD, hprev]
  ring

/-- C14. For every year and month, `renderDays` produces exactly 42 day cells. -/
theorem renderDays_length (year month : Int) : (renderDays year month).length = 42 := by
  simp [renderDays]

/-- C16. For a year and month with `n` days whose first day falls on weekday `s`
(0 = Sunday), the cell at an index `i` with `s ≤ i < s + n` is day `i - s + 1` of the
displayed month and is not marked other-month, and the cell at an index `i` with
`s + n ≤ i ≤ 41` is day `i - s - n + 1` of the following month and is marked
other-month. -/
theorem renderDays_current_and_next (year month n s : Int) (i : Nat)
    (h0 : 0 ≤ month) (h11 : month ≤ 11) (hn : daysInMonth year month = n)
    (hs : weekDay (makeDay year month 1) = s) (hi : i < 42) :
    (s ≤ (i : Int) ∧ (i : Int) < s + n →
      ∃ c, (renderDays year month)[i]? = some c ∧ c.isOtherMonth = false ∧
        c.dayNumber = (i : Int) - s + 1 ∧ yearFromDay c.date = year ∧
        monthFromDay c.date = month ∧ dateFromDay c.date = (i : Int) - s + 1) ∧
    (s + n ≤ (i : Int) →
      ∃ c, (renderDays year month)[i]? = some c ∧ c.isOtherMonth = true ∧
        c.dayNumber = (i : Int) - s - n + 1 ∧ yearFromDay c.date = year + (month + 1) / 12 ∧
        monthFromDay c.date = (month + 1) % 12 ∧
        dateFromDay c.date = (i : Int) - s - n + 1) := by
  have hcell := renderDays_getElem year month h0 h11 hi
  rw [hs, hn] at hcell
  have hsb := weekDay_bounds (makeDay year month 1)
  rw [hs] at hsb
  have hnb := daysInMonth_bounds year month
  rw [hn] at hnb
  constructor
  · rintro ⟨h1, h2⟩
    rw [if_neg (by omega), if_pos h2] at hcell
    refine ⟨_, hcell, rfl, rfl, ?_⟩
    exact civil_of_makeDay h0 h11 (by omega) (by rw [hn]; omega)
  · intro h1
    rw [if_neg (by omega), if_neg (by omega)] at hcell
    refine ⟨_, hcell, rfl, rfl, ?_⟩
    have hnext := daysInMonth_bounds (year + (month + 1) / 12) ((month + 1) % 12)
    exact civil_of_makeDay_carry (by omega) (by omega)

/-- Witness for C16: March 2024 has 31 days and starts on a Friday; the cell at index 5
is 1 March 2024. -/
theorem renderDays_current_and_next_witness :
    ∃ c, (renderDays 2024 2)[5]? = some c ∧ c.isOtherMonth = false ∧
      c.dayNumber = ((5 : Nat) : Int) - 5 + 1 ∧ yearFromDay c.date = 2024 ∧
      monthFromDay c.date = 2 ∧ dateFromDay c.date = ((5 : Nat) : Int) - 5 + 1 :=
  (renderDays_current_and_next 2024 2 31 5 5 (by decide) (by decide) (by decide)
    (by decide) (by decide)).1 ⟨by decide, by decide⟩

/-- C17. The grid for February 2024 has exactly 42 cells, cell 0 is dated 2024-01-28, a
Sunday, and the last cell that is not marked other-month is dated 2024-02-29. -/
theorem renderDays_february_2024 :
    (renderDays 2024 1).length = 42 ∧
    (renderDays 2024 1)[0]? = some ⟨isoDate 2024 1 28, 28, true⟩ ∧
    (yearFromDay (isoDate 2024 1 28), monthFromDay (isoDate 2024 1 28) + 1,
      dateFromDay (isoDate 2024 1 28)) = (2024, 1, 28) ∧
    weekDay (isoDate 2024 1 28) = 0 ∧
    ((renderDays 2024 1).filter (fun c => !c.isOtherMonth)).getLast?
      = some ⟨isoDate 2024 2 29, 29, false⟩ ∧
    (yearFromDay (isoDate 2024 2 29), monthFromDay (isoDate 2024 2 29) + 1,
      dateFromDay (isoDate 2024 2 29)) = (2024, 2, 29) := by
  decide

/-- C15 at March 2024. The first of March 2024 is a Friday, so the grid should open on
Sunday 2024-02-25. `renderDays` reads the length of the previous month from
`new Date(year, month - 1, 0)`, which is the last day of January (31) instead of February
(29): cell 0 is Tuesday 2024-02-27, cells 3 and 4 are labelled 30 and 31 and fall on
2024-03-01 and 2024-03-02, and cell 5 (1 March) is the day before cell 4. -/
theorem renderDays_march_2024 :
    weekDay (isoDate 2024 3 1) = 5 ∧
    weekDay (isoDate 2024 2 25) = 0 ∧ isoDate 2024 2 25 + 5 = isoDate 2024 3 1 ∧
    dateFromDay (makeDay 2024 (2 - 1) 0) = 31 ∧ daysInMonth 2024 1 = 29 ∧
    (renderDays 2024 2)[0]? = some ⟨isoDate 2024 2 27, 27, true⟩ ∧
    weekDay (isoDate 2024 2 27) = 2 ∧
    (renderDays 2024 2)[3]? = some ⟨isoDate 2024 3 1, 30, true⟩ ∧
    (renderDays 2024 2)[4]? = some ⟨isoDate 2024 3 2, 31, true⟩ ∧
    (renderDays 2024 2)[5]? = some ⟨isoDate 2024 3 1, 1, false⟩ ∧
    isoDate 2024 3 1 ≠ isoDate 2024 3 2 + 1 := by
  decide

end CalendarManager

namespace TodoManager

open CalendarApp

/-! ## Recurring todos -/

/-- Pushing one record per index onto both lists appends the mapped list to both. -/
theorem foldl_push (f : Nat → Todo) (l : List Nat) (app : CalendarApp) :
    l.foldl (fun (a : CalendarApp) (i : Nat) =>
      { a with todos := a.todos ++ [f i], filteredTodos := a.filteredTodos ++ [f i] }) app
      = { app with todos := app.todos ++ l.map f,
                   filteredTodos := app.filteredTodos ++ l.map f } := by
  induction l generalizing app with
  | nil => simp
  | cons x xs ih => simp [List.foldl, ih, List.append_assoc]

theorem createRecurringTodos_eq (tz : TimeZone) (fresh : Nat → Fresh) (app : CalendarApp)
    (originalTodo : Todo) :
    createRecurringTodos tz fresh app originalTodo =
      saveTodos { app with
        todos := app.todos ++ (List.range' 1 10).map (recurringTodo tz fresh originalTodo),
        filteredTodos :=
          app.filteredTodos ++ (List.range' 1 10).map (recurringTodo tz fresh originalTodo) } := by
  unfold createRecurringTodos
  simp only [foldl_push]

theorem recurringTodo_date (tz : TimeZone) (fresh : Nat → Fresh) (originalTodo : Todo)
    (i : Nat) :
    (recurringTodo tz fresh originalTodo i).date =
      toISODate (setDate tz (parseIsoDate originalTodo.date)
        (getDate tz (parseIsoDate originalTodo.date) + 7 * (i : Int))) :=
  rfl

/-- In a zone whose offset from UTC never changes, instance `i` is dated `7 * i` days
after the original. -/
theorem recurringTodo_date_fixed (off : Int) (fresh : Nat → Fresh) (originalTodo : Todo)
    (i : Nat) :
    (recurringTodo (TimeZone.fixed off) fresh originalTodo i).date
      = originalTodo.date + 7 * (i : Int) := by
  rw [recurringTodo_date]
  simp only [setDate, getDate, localTime, utc, TimeZone.fixed, parseIsoDate, toISODate,
    makeDay_civil_add]
  unfold day timeWithinDay msPerDay
  omega

/-- C11. `createRecurringTodos` adds exactly 10 records: afterwards `todos` and
`filteredTodos` are the previous lists followed by the same 10 new records, so every
earlier record is unchanged; each new record has `recurring = false`, and `createTodo`
adds 11 records for recurring form data (the todo and its 10 instances) and 1
otherwise, so the instances start no generation of their own. -/
theorem createRecurringTodos_appends_ten (tz : TimeZone) (fresh : Nat → Fresh)
    (app : CalendarApp) (originalTodo : Todo) :
    ((List.range' 1 10).map (recurringTodo tz fresh originalTodo)).length = 10 ∧
    (createRecurringTodos tz fresh app originalTodo).todos
      = app.todos ++ (List.range' 1 10).map (recurringTodo tz fresh originalTodo) ∧
    (createRecurringTodos tz fresh app originalTodo).filteredTodos
      = app.filteredTodos ++ (List.range' 1 10).map (recurringTodo tz fresh originalTodo) ∧
    (∀ i : Nat, (recurringTodo tz fresh originalTodo i).recurring = false) ∧
    (∀ data : TodoData,
      (createTodo tz fresh app data).todos.length
        = app.todos.length + (if data.recurring then 11 else 1) ∧
      (createTodo tz fresh app data).filteredTodos.length
        = app.filteredTodos.length + (if data.recurring then 11 else 1)) := by
  refine ⟨by simp, ?_, ?_, fun i => rfl, ?_⟩
  · rw [createRecurringTodos_eq]; rfl
  · rw [createRecurringTodos_eq]; rfl
  · intro data
    unfold createTodo
    cases hr : data.recurring
    · simp [saveTodos]
    · simp [createRecurringTodos_eq, saveTodos]

/-- C13. Every record generated by `createRecurringTodos` has `recurring = false` and
`parentId` equal to the original's id, and carries the original's title, description,
time, priority, category and completed fields. -/
theorem createRecurringTodos_fields (tz : TimeZone) (fresh : Nat → Fresh)
    (app : CalendarApp) (originalTodo : Todo) :
    ∀ r ∈ (createRecurringTodos tz fresh app originalTodo).todos.drop app.todos.length,
      r.recurring = false ∧ r.parentId = some originalTodo.id ∧
      r.title = originalTodo.title ∧ r.description = originalTodo.description ∧
      r.time = originalTodo.time ∧ r.priority = originalTodo.priority ∧
      r.category = originalTodo.category ∧ r.completed = originalTodo.completed := by
  intro r hr
  rw [createRecurringTodos_eq] at hr
  simp only [saveTodos, List.drop_left] at hr
  obtain ⟨i, _, rfl⟩ := List.mem_map.1 hr
  exact ⟨rfl, rfl, rfl, rfl, rfl, rfl, rfl, rfl⟩

/-- Witness for C13: the first instance generated for the example todo. -/
theorem createRecurringTodos_fields_witness :
    (recurringTodo (TimeZone.fixed 0) numbered weeklyTodo 1).recurring = false ∧
    (recurringTodo (TimeZone.fixed 0) numbered weeklyTodo 1).parentId = some weeklyTodo.id ∧
    (recurringTodo (TimeZone.fixed 0) numbered weeklyTodo 1).title = weeklyTodo.title ∧
    (recurringTodo (TimeZone.fixed 0) numbered weeklyTodo 1).description
      = weeklyTodo.description ∧
    (recurringTodo (TimeZone.fixed 0) numbered weeklyTodo 1).time = weeklyTodo.time ∧
    (recurringTodo (TimeZone.fixed 0) numbered weeklyTodo 1).priority = weeklyTodo.priority ∧
    (recurringTodo (TimeZone.fixed 0) numbered weeklyTodo 1).category = weeklyTodo.category ∧
    (recurringTodo (TimeZone.fixed 0) numbered weeklyTodo 1).completed
      = weeklyTodo.completed :=
  createRecurringTodos_fields (TimeZone.fixed 0) numbered CalendarApp.empty weeklyTodo
    (recurringTodo (TimeZone.fixed 0) numbered weeklyTodo 1)
    (by
      rw [createRecurringTodos_eq]
      simp only [saveTodos, CalendarApp.empty, List.length_nil, List.drop_zero, List.nil_append]
      exact List.mem_map.2 ⟨1, by decide, rfl⟩)

/-- C12 in US Eastern time. For an original dated 2024-01-01 the ten instances are dated
2024-01-08, 2024-01-15, ..., 2024-03-04 and then 2024-03-10: the last one is 69 days
after the original, not 70 (2024-03-11). The original is midnight UTC, 19:00 local on
31 December; `setDate` keeps 19:00 local, which after the clock change of 10 March is
23:00 UTC of 10 March. -/
theorem createRecurringTodos_dates_usEastern (fresh : Nat → Fresh) (app : CalendarApp)
    (originalTodo : Todo) :
    ((createRecurringTodos usEastern2024 fresh app
        { originalTodo with date := isoDate 2024 1 1 }).todos.drop app.todos.length).map
      (fun t => t.date)
      = [isoDate 2024 1 8, isoDate 2024 1 15, isoDate 2024 1 22, isoDate 2024 1 29,
          isoDate 2024 2 5, isoDate 2024 2 12, isoDate 2024 2 19, isoDate 2024 2 26,
          isoDate 2024 3 4, isoDate 2024 3 10] ∧
    isoDate 2024 1 1 + 7 * 10 = isoDate 2024 3 11 ∧
    isoDate 2024 3 10 ≠ isoDate 2024 3 11 := by
  refine ⟨?_, by decide, by decide⟩
  rw [createRecurringTodos_eq]
  simp only [saveTodos, List.drop_left, List.map_map]
  have h : ((fun (t : Todo) => t.date) ∘
      recurringTodo usEastern2024 fresh { originalTodo with date := isoDate 2024 1 1 })
      = fun (i : Nat) => toISODate (setDate usEastern2024 (parseIsoDate (isoDate 2024 1 1))
          (getDate usEastern2024 (parseIsoDate (isoDate 2024 1 1)) + 7 * (i : Int))) := by
    funext i; rfl
  rw [h]
  decide

/-! ## Validation -/

theorem setHoursZero_fixed (off t : Int) :
    setHoursZero (TimeZone.fixed off) t = day (t + off) * msPerDay - off := by
  simp [setHoursZero, localTime, utc, TimeZone.fixed]

/-- In a zone with a constant offset of less than a day, `validateTodoData` rejects
exactly when the title is empty, or the date is empty, or nothing is being edited and
the date (east of Greenwich) or the day before the date (west of Greenwich) is before
the local date of today. -/
theorem validateTodoData_fixed (off now : Int) (app : CalendarApp) (data : FormData)
    (h1 : -msPerDay < off) (h2 : off < msPerDay) :
    (validateTodoData (TimeZone.fixed off) now app data).1 = false ↔
      data.title = "" ∨ data.date = none ∨
      ∃ d, data.date = some d ∧ (if 0 ≤ off then d else d - 1) < day (now + off) ∧
        app.currentEditingTodo = none := by
  unfold validateTodoData
  by_cases ht : data.title = ""
  · simp [ht]
  · cases hd : data.date with
    | none => simp [ht]
    | some d =>
      simp only [ht, if_false, false_or, Option.some.injEq, exists_eq_left', reduceCtorEq]
      rw [setHoursZero_fixed, setHoursZero_fixed]
      have key : (day (parseIsoDate d + off) * msPerDay - off
            < day (now + off) * msPerDay - off) ↔
          (if 0 ≤ off then d else d - 1) < day (now + off) := by
        unfold day parseIsoDate msPerDay at *
        split_ifs <;> omega
      by_cases he : app.currentEditingTodo = none
      · by_cases hlt : day (parseIsoDate d + off) * msPerDay - off
            < day (now + off) * msPerDay - off
        · simp [he, hlt, key.1 hlt]
        · have := mt key.2 hlt
          simp [he, hlt, this]
      · simp [he]

/-- C18 west of Greenwich. In a zone five hours behind UTC, at noon local time on
2024-06-15, form data with a title and the date 2024-06-15 (today, not before today) and
no todo being edited is rejected with "Please select a future date", and `saveTodo`
creates nothing. -/
theorem validateTodoData_rejects_today :
    day (localTime (TimeZone.fixed (-18000000)) (isoDate 2024 6 15 * msPerDay + 61200000))
      = isoDate 2024 6 15 ∧
    (rentForm (some (isoDate 2024 6 15))).title ≠ "" ∧
    ¬ (isoDate 2024 6 15 < isoDate 2024 6 15) ∧
    validateTodoData (TimeZone.fixed (-18000000))
        (isoDate 2024 6 15 * msPerDay + 61200000) CalendarApp.empty
        (rentForm (some (isoDate 2024 6 15)))
      = (false, showNotification CalendarApp.empty "Please select a future date" "error") ∧
    (saveTodo (TimeZone.fixed (-18000000)) (isoDate 2024 6 15 * msPerDay + 61200000)
        numbered CalendarApp.empty (rentForm (some (isoDate 2024 6 15)))).todos = [] := by
  decide

/-! ## Import and load -/

/-- C19. For a file that is not valid JSON, or whose parsed value is `null` or has no
array field `todos`, `importTodos` leaves `todos`, `filteredTodos` and the stored list as
they were and only reports the error. -/
theorem importTodos_malformed (app : CalendarApp) (file : ImportFile)
    (h : file = ImportFile.invalidJson ∨ file = ImportFile.jsonNull ∨
      file = ImportFile.jsonValue none) :
    (importTodos app file).todos = app.todos ∧
    (importTodos app file).filteredTodos = app.filteredTodos ∧
    (importTodos app file).stored = app.stored ∧
    (importTodos app file).notifications = app.notifications ++
      [("Error importing todos. Please check the file format.", "error")] := by
  rcases h with h | h | h <;> subst h <;>
    simp [importTodos, importBody, showNotification]

/-- Witness for C19: a file whose JSON has no `todos` array, imported into a list that
holds the example todo. -/
theorem importTodos_malformed_witness :
    (importTodos { CalendarApp.empty with todos := [weeklyTodo], filteredTodos := [weeklyTodo] }
      (ImportFile.jsonValue none)).todos = [weeklyTodo] :=
  (importTodos_malformed
    { CalendarApp.empty with todos := [weeklyTodo], filteredTodos := [weeklyTodo] }
    (ImportFile.jsonValue none) (Or.inr (Or.inr rfl))).1

end TodoManager

namespace CalendarApp

/-- What `loadTodos` leaves in `todos` and `filteredTodos`, by the kind of stored value:
both empty for a missing, empty or malformed entry and for `null`, a boolean, a number
or an object; the array twice for an array; for a JSON string, the string itself and the
array of its characters. -/
theorem loadTodos_cases :
    loadTodos StoredItem.absent = (Json.arr [], Json.arr []) ∧
    loadTodos StoredItem.emptyText = (Json.arr [], Json.arr []) ∧
    loadTodos (StoredItem.text none) = (Json.arr [], Json.arr []) ∧
    loadTodos (StoredItem.text (some Json.null)) = (Json.arr [], Json.arr []) ∧
    (∀ b, loadTodos (StoredItem.text (some (Json.bool b))) = (Json.arr [], Json.arr [])) ∧
    (∀ n, loadTodos (StoredItem.text (some (Json.num n))) = (Json.arr [], Json.arr [])) ∧
    (∀ fields,
      loadTodos (StoredItem.text (some (Json.obj fields))) = (Json.arr [], Json.arr [])) ∧
    (∀ items,
      loadTodos (StoredItem.text (some (Json.arr items))) = (Json.arr items, Json.arr items)) ∧
    (∀ s, loadTodos (StoredItem.text (some (Json.str s)))
      = (Json.str s, Json.arr (s.toList.map fun c => Json.str (String.singleton c)))) :=
  ⟨rfl, rfl, rfl, rfl, fun _ => rfl, fun _ => rfl, fun _ => rfl, fun _ => rfl, fun _ => rfl⟩

/-- C20 at a stored JSON string. With `"abc"` stored under `calender_todos`, `loadTodos`
does not raise, `todos` is the string `abc` and `filteredTodos` is the array of its three
characters: the value is not a list, yet neither field is the empty list. -/
theorem loadTodos_string :
    loadTodos (StoredItem.text (some (Json.str "abc")))
      = (Json.str "abc", Json.arr [Json.str "a", Json.str "b", Json.str "c"]) ∧
    (loadTodos (StoredItem.text (some (Json.str "abc")))).1 ≠ Json.arr [] ∧
    (loadTodos (StoredItem.text (some (Json.str "abc")))).2 ≠ Json.arr [] := by
  have h : loadTodos (StoredItem.text (some (Json.str "abc")))
      = (Json.str "abc", Json.arr [Json.str "a", Json.str "b", Json.str "c"]) := rfl
  rw [h]
  exact ⟨rfl, by simp, by simp⟩

end CalendarApp

end Calender

/-! # Currency conversion: the rate and the dashboard converter -/

namespace CurrencyManager

set_option linter.unusedVariables false

/-- C26. On a non-empty rate table, for every amount `a ≥ 0` and currencies `X ≠ Y`,
`convertCurrency(a, X, Y)` is `a * getExchangeRate(X, Y)` rounded half-up to 2 decimal
places, and `getExchangeRate(X, X) = 1`. -/
theorem getExchangeRate_is_applied_rate (m : CurrencyManager) (a : ℚ) (X Y : String)
    (hne : m.exchangeRates ≠ []) (ha : 0 ≤ a) (hXY : X ≠ Y) :
    (convertCurrency m a X Y).1 = (⌊a * getExchangeRate m X Y * 100 + 1 / 2⌋ : ℚ) / 100 ∧
    getExchangeRate m X X = 1 := by
  have h2 : (convertCurrency m a X Y).2 = m := by
    rw [convertCurrency_snd m a hXY]; simp [hne]
  have h1 := convertCurrency_fst m a hXY
  rw [h2] at h1
  exact ⟨h1, by simp [getExchangeRate]⟩

/-- Witness for C26: 100 EUR to JPY on base USD with EUR at 0.85 and JPY at 110. -/
theorem getExchangeRate_is_applied_rate_witness :
    (convertCurrency (ofTable "USD" [("EUR", 0.85), ("JPY", 110)]) 100 "EUR" "JPY").1
      = (⌊(100 : ℚ) * getExchangeRate (ofTable "USD" [("EUR", 0.85), ("JPY", 110)])
          "EUR" "JPY" * 100 + 1 / 2⌋ : ℚ) / 100 :=
  (getExchangeRate_is_applied_rate (ofTable "USD" [("EUR", 0.85), ("JPY", 110)]) 100
    "EUR" "JPY" (by simp [ofTable]) (by norm_num) (by decide)).1

/-- On base USD the table `useFallbackRates` installs reads, for every currency code, the
same rate as the literal of the dashboard converter. -/
theorem rateOrOne_fallback_USD (m : CurrencyManager) (hb : m.baseCurrency = "USD")
    (c : String) :
    rateOrOne (useFallbackRates m).exchangeRates c = rateOrOne ExpenseManager.rates c := by
  have ht : (useFallbackRates m).exchangeRates
      = [("EUR", 0.85), ("GBP", 0.73), ("THB", 33.5), ("JPY", 110), ("CAD", 1.25),
          ("AUD", 1.35), ("CHF", 0.92), ("USD", 1)] := by
    simp [useFallbackRates, hb, fallbackRates, setRate]
  rw [ht]
  unfold rateOrOne ExpenseManager.rates
  by_cases h1 : c = "USD"
  · subst h1; simp [List.lookup]
  by_cases h2 : c = "EUR"
  · subst h2; simp [List.lookup]
  by_cases h3 : c = "GBP"
  · subst h3; simp [List.lookup]
  by_cases h4 : c = "THB"
  · subst h4; simp [List.lookup]
  by_cases h5 : c = "JPY"
  · subst h5; simp [List.lookup]
  by_cases h6 : c = "CAD"
  · subst h6; simp [List.lookup]
  by_cases h7 : c = "AUD"
  · subst h7; simp [List.lookup]
  by_cases h8 : c = "CHF"
  · subst h8; simp [List.lookup]
  have e1 : (c == "USD") = false := by simpa using h1
  have e2 : (c == "EUR") = false := by simpa using h2
  have e3 : (c == "GBP") = false := by simpa using h3
  have e4 : (c == "THB") = false := by simpa using h4
  have e5 : (c == "JPY") = false := by simpa using h5
  have e6 : (c == "CAD") = false := by simpa using h6
  have e7 : (c == "AUD") = false := by simpa using h7
  have e8 : (c == "CHF") = false := by simpa using h8
  simp only [List.lookup, e1, e2, e3, e4, e5, e6, e7, e8]

/-- C25. With base currency USD and the rate table set by `useFallbackRates`, for every
amount `a ≥ 0` and distinct currencies `X`, `Y`, `CurrencyManager.convertCurrency(a, X, Y)`
is `ExpenseManager.convertCurrency(a, X, Y)` rounded half-up to 2 decimal places. -/
theorem convertCurrency_agrees_with_dashboard (m : CurrencyManager) (a : ℚ) (X Y : String)
    (hb : m.baseCurrency = "USD") (ha : 0 ≤ a) (hXY : X ≠ Y) :
    (convertCurrency (useFallbackRates m) a X Y).1
      = (⌊ExpenseManager.convertCurrency a X Y * 100 + 1 / 2⌋ : ℚ) / 100 := by
  have hne : (useFallbackRates m).exchangeRates ≠ [] := by
    simp [useFallbackRates, hb, fallbackRates, setRate]
  have h2 : (convertCurrency (useFallbackRates m) a X Y).2 = useFallbackRates m := by
    rw [convertCurrency_snd _ a hXY]; simp [hne]
  have h1 := convertCurrency_fst (useFallbackRates m) a hXY
  rw [h2] at h1
  rw [h1]
  have hbase : (useFallbackRates m).baseCurrency = "USD" := by
    rw [useFallbackRates_baseCurrency, hb]
  have hr := rateOrOne_fallback_USD m hb
  have husd : rateOrOne ExpenseManager.rates "USD" = 1 := by
    simp [rateOrOne, ExpenseManager.rates, List.lookup]
  have key : a * getExchangeRate (useFallbackRates m) X Y
      = ExpenseManager.convertCurrency a X Y := by
    unfold getExchangeRate ExpenseManager.convertCurrency
    simp only [hXY, if_false, hbase, hr]
    by_cases hX : X = "USD"
    · subst hX
      simp [husd]
    · by_cases hY : Y = "USD"
      · subst hY
        simp [hX, husd, div_eq_mul_inv]
      · simp only [hX, hY, if_false]
        ring
  rw [key]

/-- Witness for C25: 100 EUR to JPY on the USD fallback table. -/
theorem convertCurrency_agrees_with_dashboard_witness :
    (convertCurrency (useFallbackRates (ofTable "USD" [])) 100 "EUR" "JPY").1
      = (⌊ExpenseManager.convertCurrency 100 "EUR" "JPY" * 100 + 1 / 2⌋ : ℚ) / 100 :=
  convertCurrency_agrees_with_dashboard (ofTable "USD" []) 100 "EUR" "JPY" rfl
    (by norm_num) (by decide)

end CurrencyManager

/-! # Expense tracker: start-up, calendar and reports -/

namespace ExpenseTracker

open Calender.CalendarApp

set_option linter.unusedVariables false

/-- C21, as stated, fails: with malformed JSON stored under `expenses` (or under
`settings`) the storage read raises a `SyntaxError`; nothing catches it and no empty list
is put in its place. -/
theorem readStorage_counterexample :
    readStorage (StoredItem.text none) StoredItem.absent = Except.error "SyntaxError" ∧
    readStorage StoredItem.absent (StoredItem.text none) = Except.error "SyntaxError" :=
  ⟨rfl, rfl⟩

/-- C21, amended. When the values stored under `expenses` and `settings` are each absent
or well-formed JSON, the storage read does not raise: `expenses` is the parsed value when
it is truthy and the empty list otherwise, `settings` is the parsed value when it is
truthy and the default settings otherwise, each key on its own. So an absent value gives
the empty expenses list and the default settings, as does a stored `null`, `false`, `0`
or `""`. A stored value that is malformed JSON or the empty string, under either key,
raises a `SyntaxError` out of the constructor. -/
theorem readStorage_cases :
    (∀ (expenses settings : StoredItem) (v w : Json),
      (expenses = StoredItem.absent ∨ expenses = StoredItem.text (some v)) →
      (settings = StoredItem.absent ∨ settings = StoredItem.text (some w)) →
      ∃ r, readStorage expenses settings = Except.ok r) ∧
    readStorage StoredItem.absent StoredItem.absent
      = Except.ok (Json.arr [], defaultSettings) ∧
    readStorage (StoredItem.text (some Json.null)) (StoredItem.text (some Json.null))
      = Except.ok (Json.arr [], defaultSettings) ∧
    (∀ settings, readStorage (StoredItem.text none) settings = Except.error "SyntaxError") ∧
    (∀ (expenses : StoredItem) (v : Json),
      (expenses = StoredItem.absent ∨ expenses = StoredItem.text (some v)) →
      readStorage expenses (StoredItem.text none) = Except.error "SyntaxError") ∧
    (∀ settings, readStorage StoredItem.emptyText settings = Except.error "SyntaxError") ∧
    (∀ (expenses : StoredItem) (v : Json),
      (expenses = StoredItem.absent ∨ expenses = StoredItem.text (some v)) →
      readStorage expenses StoredItem.emptyText = Except.error "SyntaxError") ∧
    (∀ v w : Json,
      readStorage (StoredItem.text (some v)) (StoredItem.text (some w))
        = Except.ok (if truthy v then v else Json.arr [],
            if truthy w then w else defaultSettings) ∧
      readStorage StoredItem.absent (StoredItem.text (some w))
        = Except.ok (Json.arr [], if truthy w then w else defaultSettings) ∧
      readStorage (StoredItem.text (some v)) StoredItem.absent
        = Except.ok (if truthy v then v else Json.arr [], defaultSettings)) ∧
    (∀ v w : Json, truthy v = false → truthy w = false →
      readStorage (StoredItem.text (some v)) (StoredItem.text (some w))
        = Except.ok (Json.arr [], defaultSettings)) ∧
    (truthy Json.null = false ∧ truthy (Json.bool false) = false ∧
      truthy (Json.num 0) = false ∧ truthy (Json.str "") = false) ∧
    readStorage (StoredItem.text (some (Json.bool false)))
        (StoredItem.text (some (Json.num 0)))
      = Except.ok (Json.arr [], defaultSettings) ∧
    readStorage (StoredItem.text (some (Json.num 0))) (StoredItem.text (some (Json.str "")))
      = Except.ok (Json.arr [], defaultSettings) ∧
    readStorage (StoredItem.text (some (Json.str "")))
        (StoredItem.text (some (Json.bool false)))
      = Except.ok (Json.arr [], defaultSettings) := by
  have hgen : ∀ v w : Json,
      readStorage (StoredItem.text (some v)) (StoredItem.text (some w))
        = Except.ok (if truthy v then v else Json.arr [],
            if truthy w then w else defaultSettings) := fun _ _ => rfl
  have hfalsy : truthy Json.null = false ∧ truthy (Json.bool false) = false ∧
      truthy (Json.num 0) = false ∧ truthy (Json.str "") = false :=
    ⟨rfl, rfl, by simp [truthy], by simp [truthy]⟩
  have hboth : ∀ v w : Json, truthy v = false → truthy w = false →
      readStorage (StoredItem.text (some v)) (StoredItem.text (some w))
        = Except.ok (Json.arr [], defaultSettings) := by
    intro v w hv hw
    rw [hgen, hv, hw]
    rfl
  refine ⟨?_, rfl, rfl, fun _ => rfl, ?_, fun _ => rfl, ?_,
    fun v w => ⟨hgen v w, rfl, rfl⟩, hboth, hfalsy,
    hboth _ _ hfalsy.2.1 hfalsy.2.2.1, hboth _ _ hfalsy.2.2.1 hfalsy.2.2.2,
    hboth _ _ hfalsy.2.2.2 hfalsy.2.1⟩
  · intro expenses settings v w he hs
    rcases he with he | he <;> rcases hs with hs | hs <;> subst he <;> subst hs <;>
      exact ⟨_, rfl⟩
  · intro expenses v he
    rcases he with he | he <;> subst he <;> rfl
  · intro expenses v he
    rcases he with he | he <;> subst he <;> rfl

/-- Witness for C21: an array stored under `expenses` and nothing under `settings` reads
without raising; the empty string under `settings` raises; `false` and `0` stored under
the two keys give the empty list and the default settings. -/
theorem readStorage_cases_witness :
    (∃ r, readStorage (StoredItem.text (some (Json.arr []))) StoredItem.absent
      = Except.ok r) ∧
    readStorage (StoredItem.text (some (Json.arr []))) StoredItem.emptyText
      = Except.error "SyntaxError" ∧
    readStorage (StoredItem.text (some (Json.bool false)))
        (StoredItem.text (some (Json.num 0)))
      = Except.ok (Json.arr [], defaultSettings) :=
  ⟨readStorage_cases.1 (StoredItem.text (some (Json.arr []))) StoredItem.absent
      (Json.arr []) Json.null (Or.inr rfl) (Or.inl rfl),
    readStorage_cases.2.2.2.2.2.2.1 (StoredItem.text (some (Json.arr []))) (Json.arr [])
      (Or.inr rfl),
    readStorage_cases.2.2.2.2.2.2.2.2.1 (Json.bool false) (Json.num 0) rfl
      (by simp [truthy])⟩

namespace CalendarManager

/-- For day totals other than 200 the level agrees with the legend: empty for 0, and for
`t > 0`, low below 50, medium from 50 up to 200, high above 200. -/
theorem getSpendingLevel_off_boundary (t : ℚ) (h : t ≠ 200) :
    getSpendingLevel 0 = "" ∧
    (0 < t → getSpendingLevel t
      = if t < 50 then "low" else if t ≤ 200 then "medium" else "high") := by
  refine ⟨by simp [getSpendingLevel], fun ht => ?_⟩
  unfold getSpendingLevel
  rw [if_neg (ne_of_gt ht)]
  by_cases h50 : t < 50
  · simp [h50]
  · by_cases h200 : t < 200
    · simp [h50, h200, le_of_lt h200]
    · have : ¬ t ≤ 200 := fun hle => h (le_antisymm hle (not_lt.1 h200))
      simp [h50, h200, this]

/-- C23 at a day total of exactly 200. The legend puts 200 in the medium band
("$50 - $200") and starts the high band above 200 ("> $200"); `getSpendingLevel(200)` is
`high`. -/
theorem getSpendingLevel_at_200 :
    getSpendingLevel 200 = "high" ∧
    legend.lookup "medium" = some "Medium spending ($50 - $200)" ∧
    legend.lookup "high" = some "High spending (> $200)" := by
  refine ⟨?_, by decide, by decide⟩
  unfold getSpendingLevel
  norm_num

end CalendarManager

end ExpenseTracker

/-! # Calendar and todo planner: import, special dates, month navigation -/

namespace Calender

open JsDate

set_option linter.unusedVariables false

namespace TodoManager

open CalendarApp

/-- What `importTodos` does with a file whose `todos` is an array: the records whose id is
not among the existing ids are appended, in file order, and every earlier record stays in
place; no appended record has an id that already existed; and when the ids in the file
are pairwise distinct, so are the ids afterwards. -/
theorem importTodos_merge (app : CalendarApp) (imported : List Todo) :
    (importTodos app (ImportFile.jsonValue (some imported))).todos
      = app.todos ++ imported.filter
          (fun t => !((app.todos.map (fun t => t.id)).contains t.id)) ∧
    (∀ t ∈ (importTodos app (ImportFile.jsonValue (some imported))).todos.drop
        app.todos.length, t.id ∉ app.todos.map (fun t => t.id)) ∧
    ((app.todos.map (fun t => t.id)).Nodup → (imported.map (fun t => t.id)).Nodup →
      ((importTodos app (ImportFile.jsonValue (some imported))).todos.map
        (fun t => t.id)).Nodup) := by
  have h : (importTodos app (ImportFile.jsonValue (some imported))).todos
      = app.todos ++ imported.filter
          (fun t => !((app.todos.map (fun t => t.id)).contains t.id)) := by
    simp [importTodos, importBody, showNotification, saveTodos]
  refine ⟨h, ?_, ?_⟩
  · intro t ht
    rw [h, List.drop_left] at ht
    have := (List.mem_filter.1 ht).2
    simpa using this
  · intro h1 h2
    rw [h, List.map_append]
    refine List.Nodup.append h1 ((h2.sublist ((List.filter_sublist _).map _))) ?_
    intro x hx1 hx2
    obtain ⟨t, ht, rfl⟩ := List.mem_map.1 hx2
    have := (List.mem_filter.1 ht).2
    simp at this
    obtain ⟨u, hu, hue⟩ := List.mem_map.1 hx1
    exact this u hu hue

/-- C22 at a file that lists one id twice. The existing list holds one todo with id `t0`
(pairwise distinct ids); the file's `todos` array holds two records with the new id `t1`.
Both are appended: afterwards the ids are `t0`, `t1`, `t1`, not pairwise distinct. -/
theorem importTodos_duplicate_ids :
    ([weeklyTodo].map (fun t => t.id)).Nodup ∧
    ((importTodos { CalendarApp.empty with todos := [weeklyTodo], filteredTodos := [weeklyTodo] }
        (ImportFile.jsonValue (some [{ weeklyTodo with id := "t1" },
          { weeklyTodo with id := "t1", title := "Swim" }]))).todos.map (fun t => t.id))
      = ["t0", "t1", "t1"] ∧
    ¬ ((importTodos { CalendarApp.empty with todos := [weeklyTodo], filteredTodos := [weeklyTodo] }
        (ImportFile.jsonValue (some [{ weeklyTodo with id := "t1" },
          { weeklyTodo with id := "t1", title := "Swim" }]))).todos.map
        (fun t => t.id)).Nodup := by
  decide

end TodoManager

namespace CalendarApp

theorem toISODate_parseIsoDate (d : Int) : formatDateForStorage (parseIsoDate d) = d := by
  unfold formatDateForStorage toISODate day parseIsoDate msPerDay
  omega

set_option maxRecDepth 100000 in
/-- Every entry of the Thai holiday section other than 2025-05-11 is reported with the
name, type and colour listed there, and a date without an entry is reported as `null`. -/
theorem isThaiSpecialDate_thai_section :
    (∀ e ∈ thaiSpecialDateEntries.take 36, e.1 ≠ isoDate 2025 5 11 →
      isThaiSpecialDate (parseIsoDate e.1) = some e.2) ∧
    (∀ d, initThaiSpecialDates.lookup d = none → isThaiSpecialDate (parseIsoDate d) = none) := by
  refine ⟨by decide, ?_⟩
  intro d hd
  unfold isThaiSpecialDate
  rw [toISODate_parseIsoDate]
  exact hd

set_option maxRecDepth 100000 in
/-- C24 at 2025-05-11. The Thai holiday section lists 2025-05-11 as Visakha Bucha Day of
type buddhist; the international section of the same object literal lists the key
2025-05-11 again, as Mother's Day, and the later property wins: `isThaiSpecialDate` reports
Mother's Day of type international. -/
theorem isThaiSpecialDate_2025_05_11 :
    (isoDate 2025 5 11, (⟨"Visakha Bucha Day", "buddhist", "#f59e0b"⟩ : SpecialDate))
      ∈ thaiSpecialDateEntries.take 36 ∧
    (isoDate 2025 5 11, (⟨"Mother's Day", "international", "#ec4899"⟩ : SpecialDate))
      ∈ thaiSpecialDateEntries.drop 36 ∧
    isThaiSpecialDate (parseIsoDate (isoDate 2025 5 11))
      = some ⟨"Mother's Day", "international", "#ec4899"⟩ ∧
    isThaiSpecialDate (parseIsoDate (isoDate 2025 5 12)) = none := by
  decide

/-! ## Month navigation -/

theorem dateFromDay_pos (n : Int) : 1 ≤ dateFromDay n := by
  have h := yearFromDay_spec n
  rw [dayFromYear_succ] at h
  unfold dateFromDay monthFromDay monthOfYearDay monthStart
  dsimp only
  generalize dayFromYear (yearFromDay n) = y0 at h ⊢
  cases inLeapYear (yearFromDay n) <;> simp only [Bool.false_eq_true, if_false, if_true] <;>
    omega

/-- In a zone whose offset never changes, `setMonth` lands on the local day `MakeDay`
computes. -/
theorem day_setMonth_fixed (off t month : Int) :
    day (setMonth (TimeZone.fixed off) t month + off)
      = makeDay (yearFromDay (day (t + off))) month (dateFromDay (day (t + off))) := by
  simp only [setMonth, localTime, utc, TimeZone.fixed]
  unfold day timeWithinDay msPerDay
  omega

theorem displayedMonth_fixed (off u : Int) :
    displayedMonth (TimeZone.fixed off) u
      = (yearFromDay (day (u + off)), monthFromDay (day (u + off))) :=
  rfl

theorem nextMonth_fixed (off u : Int) :
    nextMonth (TimeZone.fixed off) u
      = setMonth (TimeZone.fixed off) u (monthFromDay (day (u + off)) + 1) :=
  rfl

theorem previousMonth_fixed (off u : Int) :
    previousMonth (TimeZone.fixed off) u
      = setMonth (TimeZone.fixed off) u (monthFromDay (day (u + off)) - 1) :=
  rfl

/-- In a zone whose offset never changes, from a day of the month up to the 28th,
`nextMonth` displays the following calendar month, `previousMonth` the preceding one
(the year rolls over at December and January), and `previousMonth` after `nextMonth`
displays the original month. -/
theorem nextMonth_fixed_upto_28 (off t : Int)
    (h28 : dateFromDay (day (t + off)) ≤ 28) :
    displayedMonth (TimeZone.fixed off) (nextMonth (TimeZone.fixed off) t)
      = ((displayedMonth (TimeZone.fixed off) t).1
          + ((displayedMonth (TimeZone.fixed off) t).2 + 1) / 12,
        ((displayedMonth (TimeZone.fixed off) t).2 + 1) % 12) ∧
    displayedMonth (TimeZone.fixed off) (previousMonth (TimeZone.fixed off) t)
      = ((displayedMonth (TimeZone.fixed off) t).1
          + ((displayedMonth (TimeZone.fixed off) t).2 - 1) / 12,
        ((displayedMonth (TimeZone.fixed off) t).2 - 1) % 12) ∧
    displayedMonth (TimeZone.fixed off)
        (previousMonth (TimeZone.fixed off) (nextMonth (TimeZone.fixed off) t))
      = displayedMonth (TimeZone.fixed off) t := by
  have hpos := dateFromDay_pos (day (t + off))
  have hmb := monthFromDay_bounds (day (t + off))
  have step : ∀ (y m d : Int), 1 ≤ d → d ≤ 28 →
      yearFromDay (makeDay y m d) = y + m / 12 ∧ monthFromDay (makeDay y m d) = m % 12 ∧
        dateFromDay (makeDay y m d) = d := by
    intro y m d h1 h2
    have hb := daysInMonth_bounds (y + m / 12) (m % 12)
    exact civil_of_makeDay_carry h1 (by omega)
  have hnext := step (yearFromDay (day (t + off))) (monthFromDay (day (t + off)) + 1)
    (dateFromDay (day (t + off))) hpos h28
  have hprev := step (yearFromDay (day (t + off))) (monthFromDay (day (t + off)) - 1)
    (dateFromDay (day (t + off))) hpos h28
  have hback := step (yearFromDay (day (t + off)) + (monthFromDay (day (t + off)) + 1) / 12)
    ((monthFromDay (day (t + off)) + 1) % 12 - 1) (dateFromDay (day (t + off))) hpos h28
  refine ⟨?_, ?_, ?_⟩
  · rw [displayedMonth_fixed, displayedMonth_fixed, nextMonth_fixed, day_setMonth_fixed,
      hnext.1, hnext.2.1]
  · rw [displayedMonth_fixed, displayedMonth_fixed, previousMonth_fixed, day_setMonth_fixed,
      hprev.1, hprev.2.1]
  · rw [displayedMonth_fixed, displayedMonth_fixed, previousMonth_fixed, day_setMonth_fixed,
      nextMonth_fixed, day_setMonth_fixed, hnext.1, hnext.2.1, hnext.2.2, hback.1, hback.2.1]
    refine Prod.ext ?_ ?_ <;> simp only <;> omega

/-- C30 on the 31st. In a zone seven hours ahead of UTC, with `currentDate` at 10:00 on
2024-01-31, `nextMonth` displays March 2024 (day 31 of February carries to 2 March), not
February; `previousMonth` after it displays February 2024, not January; and from
2024-03-31 `previousMonth` stays in March. -/
theorem nextMonth_from_the_31st :
    displayedMonth (TimeZone.fixed 25200000)
        (utc (TimeZone.fixed 25200000) (isoDate 2024 1 31 * msPerDay + 36000000))
      = (2024, 0) ∧
    displayedMonth (TimeZone.fixed 25200000)
        (nextMonth (TimeZone.fixed 25200000)
          (utc (TimeZone.fixed 25200000) (isoDate 2024 1 31 * msPerDay + 36000000)))
      = (2024, 2) ∧
    displayedMonth (TimeZone.fixed 25200000)
        (previousMonth (TimeZone.fixed 25200000)
          (nextMonth (TimeZone.fixed 25200000)
            (utc (TimeZone.fixed 25200000) (isoDate 2024 1 31 * msPerDay + 36000000))))
      = (2024, 1) ∧
    displayedMonth (TimeZone.fixed 25200000)
        (previousMonth (TimeZone.fixed 25200000)
          (utc (TimeZone.fixed 25200000) (isoDate 2024 3 31 * msPerDay + 36000000)))
      = (2024, 2) := by
  decide

end CalendarApp

end Calender

/-! # Expense tracker: report metrics -/

namespace ExpenseTracker

namespace ReportsManager

open CurrencyManager

set_option linter.unusedVariables false

theorem loaded_baseCurrency (m : CurrencyManager) :
    (if m.exchangeRates = [] then useFallbackRates m else m).baseCurrency
      = m.baseCurrency := by
  split_ifs
  · exact useFallbackRates_baseCurrency m
  · rfl

theorem loaded_idem (m : CurrencyManager) :
    (if (if m.exchangeRates = [] then useFallbackRates m else m).exchangeRates = []
      then useFallbackRates (if m.exchangeRates = [] then useFallbackRates m else m)
      else (if m.exchangeRates = [] then useFallbackRates m else m))
      = (if m.exchangeRates = [] then useFallbackRates m else m) := by
  by_cases he : m.exchangeRates = []
  · simp only [he, if_true]
    exact useFallbackRates_idem m he
  · simp [he]

/-- Whether or not the fallback table has been loaded yet, converting an expense to the
base currency gives the same amount, and leaves the manager as it was or loaded. -/
theorem convertExpense_stable (m s : CurrencyManager) (e : Expense)
    (hs : s = m ∨ s = (if m.exchangeRates = [] then useFallbackRates m else m)) :
    (convertExpense s e).1
      = (convertExpense (if m.exchangeRates = [] then useFallbackRates m else m) e).1 ∧
    ((convertExpense s e).2 = m ∨
      (convertExpense s e).2 = (if m.exchangeRates = [] then useFallbackRates m else m)) := by
  have hbs : s.baseCurrency = m.baseCurrency := by
    rcases hs with h | h
    · rw [h]
    · rw [h, loaded_baseCurrency]
  have hbl := loaded_baseCurrency m
  unfold convertExpense
  rw [hbs, hbl]
  by_cases hc : e.currency = m.baseCurrency
  · have e1 : ∀ u : CurrencyManager,
        convertCurrency u e.amount e.currency m.baseCurrency = (e.amount, u) := by
      intro u
      simp [convertCurrency, hc]
    rw [e1, e1]
    exact ⟨rfl, hs⟩
  · have hsnd : (convertCurrency s e.amount e.currency m.baseCurrency).2
        = (if m.exchangeRates = [] then useFallbackRates m else m) := by
      rw [convertCurrency_snd s _ hc]
      rcases hs with h | h
      · rw [h]
      · rw [h]; exact loaded_idem m
    have hsndl : (convertCurrency (if m.exchangeRates = [] then useFallbackRates m else m)
          e.amount e.currency m.baseCurrency).2
        = (if m.exchangeRates = [] then useFallbackRates m else m) := by
      rw [convertCurrency_snd _ _ hc]
      exact loaded_idem m
    refine ⟨?_, Or.inr hsnd⟩
    rw [convertCurrency_fst s e.amount hc, convertCurrency_fst _ e.amount hc, hsnd, hsndl]

theorem foldl_total (m : CurrencyManager) (expenses : List Expense) :
    ∀ (acc : ℚ) (s : CurrencyManager),
      (s = m ∨ s = (if m.exchangeRates = [] then useFallbackRates m else m)) →
      (expenses.foldl
        (fun (acc : ℚ × CurrencyManager) (expense : Expense) =>
          ((acc.1 + (convertExpense acc.2 expense).1, (convertExpense acc.2 expense).2)
            : ℚ × CurrencyManager))
        (acc, s)).1
        = acc + (expenses.map fun e =>
            (convertExpense (if m.exchangeRates = [] then useFallbackRates m else m) e).1).sum ∧
      ((expenses.foldl
        (fun (acc : ℚ × CurrencyManager) (expense : Expense) =>
          ((acc.1 + (convertExpense acc.2 expense).1, (convertExpense acc.2 expense).2)
            : ℚ × CurrencyManager))
        (acc, s)).2 = m ∨
       (expenses.foldl
        (fun (acc : ℚ × CurrencyManager) (expense : Expense) =>
          ((acc.1 + (convertExpense acc.2 expense).1, (convertExpense acc.2 expense).2)
            : ℚ × CurrencyManager))
        (acc, s)).2 = (if m.exchangeRates = [] then useFallbackRates m else m)) := by
  induction expenses with
  | nil => intro acc s hs; simpa using hs
  | cons e rest ih =>
    intro acc s hs
    obtain ⟨h1, h2⟩ := convertExpense_stable m s e hs
    simp only [List.foldl_cons, List.map_cons, List.sum_cons]
    obtain ⟨i1, i2⟩ := ih (acc + (convertExpense s e).1) (convertExpense s e).2 h2
    refine ⟨?_, i2⟩
    rw [i1, h1, add_assoc]

theorem foldl_breakdown (m : CurrencyManager) (expenses : List Expense) :
    ∀ (bd : List (String × CategoryEntry)) (s : CurrencyManager),
      (s = m ∨ s = (if m.exchangeRates = [] then useFallbackRates m else m)) →
      (expenses.foldl
        (fun (acc : List (String × CategoryEntry) × CurrencyManager) (expense : Expense) =>
          ((addToCategory acc.1 expense.category (convertExpense acc.2 expense).1,
            (convertExpense acc.2 expense).2)
            : List (String × CategoryEntry) × CurrencyManager))
        (bd, s)).1
        = expenses.foldl (fun b e => addToCategory b e.category
            (convertExpense (if m.exchangeRates = [] then useFallbackRates m else m) e).1) bd := by
  induction expenses with
  | nil => intro bd s hs; rfl
  | cons e rest ih =>
    intro bd s hs
    obtain ⟨h1, h2⟩ := convertExpense_stable m s e hs
    simp only [List.foldl_cons]
    rw [ih _ _ h2, h1]

theorem addToCategory_sums (bd : List (String × CategoryEntry)) (category : String) (x : ℚ) :
    ((addToCategory bd category x).map fun e => e.2.total).sum
      = (bd.map fun e => e.2.total).sum + x ∧
    ((addToCategory bd category x).map fun e => e.2.count).sum
      = (bd.map fun e => e.2.count).sum + 1 := by
  induction bd with
  | nil => simp [addToCategory]
  | cons p rest ih =>
    obtain ⟨k, c⟩ := p
    unfold addToCategory
    split_ifs with h
    · simp only [List.map_cons, List.sum_cons]
      constructor
      · ring
      · omega
    · simp only [List.map_cons, List.sum_cons, ih.1, ih.2]
      constructor
      · ring
      · omega

theorem foldl_addToCategory_sums (v : Expense → ℚ) (expenses : List Expense) :
    ∀ bd : List (String × CategoryEntry),
      ((expenses.foldl (fun b e => addToCategory b e.category (v e)) bd).map
          fun e => e.2.total).sum
        = (bd.map fun e => e.2.total).sum + (expenses.map v).sum ∧
      ((expenses.foldl (fun b e => addToCategory b e.category (v e)) bd).map
          fun e => e.2.count).sum
        = (bd.map fun e => e.2.count).sum + expenses.length := by
  induction expenses with
  | nil => intro bd; simp
  | cons e rest ih =>
    intro bd
    obtain ⟨i1, i2⟩ := ih (addToCategory bd e.category (v e))
    obtain ⟨a1, a2⟩ := addToCategory_sums bd e.category (v e)
    simp only [List.foldl_cons, List.map_cons, List.sum_cons, List.length_cons]
    rw [i1, i2, a1, a2]
    constructor
    · ring
    · omega

theorem sum_percentages (bd : List (String × CategoryEntry)) (T : ℚ) :
    (bd.map fun e => e.2.total / T * 100).sum = (bd.map fun e => e.2.total).sum / T * 100 := by
  induction bd with
  | nil => simp
  | cons p rest ih =>
    simp only [List.map_cons, List.sum_cons, ih]
    ring

/-- C27. After `calculateReportMetrics` on any list of expenses, starting from an empty
category breakdown: the per-category totals sum to `totalAmount`; the per-category counts
sum to the number of expenses; when `totalAmount > 0` the percentages sum to 100; and when
`totalAmount` is 0 every percentage is 0 (the quotient is taken only under the guard
`totalAmount > 0`). -/
theorem calculateReportMetrics_sums (m : CurrencyManager) (expenses : List Expense) :
    (((calculateReportMetrics m expenses).1.categoryBreakdown.map fun e => e.2.total).sum
      = (calculateReportMetrics m expenses).1.totalAmount) ∧
    (((calculateReportMetrics m expenses).1.categoryBreakdown.map fun e => e.2.count).sum
      = expenses.length) ∧
    (0 < (calculateReportMetrics m expenses).1.totalAmount →
      ((calculateReportMetrics m expenses).1.categoryBreakdown.map
        fun e => e.2.percentage).sum = 100) ∧
    ((calculateReportMetrics m expenses).1.totalAmount = 0 →
      ∀ e ∈ (calculateReportMetrics m expenses).1.categoryBreakdown, e.2.percentage = 0) := by
  obtain ⟨t1, t2⟩ := foldl_total m expenses 0 m (Or.inl rfl)
  have hb := foldl_breakdown m expenses [] _ t2
  obtain ⟨s1, s2⟩ := foldl_addToCategory_sums
    (fun e => (convertExpense (if m.exchangeRates = [] then useFallbackRates m else m) e).1)
    expenses []
  simp only [List.map_nil, List.sum_nil, zero_add] at s1 s2 t1
  unfold calculateReportMetrics
  simp only [List.map_map]
  rw [hb, t1]
  refine ⟨?_, ?_, ?_, ?_⟩
  · exact s1
  · exact s2
  · intro hpos
    have hfun : ((fun (e : String × CategoryEntry) => e.2.percentage) ∘
        fun (entry : String × CategoryEntry) =>
          (entry.1, ({ entry.2 with
            percentage :=
              if (expenses.map fun e =>
                (convertExpense (if m.exchangeRates = [] then useFallbackRates m else m) e).1).sum
                  > 0
              then entry.2.total / (expenses.map fun e =>
                (convertExpense (if m.exchangeRates = [] then useFallbackRates m else m)
                  e).1).sum * 100
              else 0 } : CategoryEntry)))
        = fun e => e.2.total / (expenses.map fun e =>
            (convertExpense (if m.exchangeRates = [] then useFallbackRates m else m) e).1).sum
              * 100 := by
      funext e
      simp [hpos]
    rw [hfun, sum_percentages, s1]
    field_simp
  · intro hzero e he
    obtain ⟨e0, _, rfl⟩ := List.mem_map.1 he
    simp [hzero]

/-- Witness for C27: two food expenses and one transport expense in the base currency
total 60, and the percentages 75 and 25 sum to 100. -/
theorem calculateReportMetrics_sums_witness :
    ((calculateReportMetrics (ofTable "USD" [("EUR", 0.85)])
        [⟨30, "USD", "food"⟩, ⟨15, "USD", "transport"⟩, ⟨15, "USD", "food"⟩]).1.categoryBreakdown.map
      fun e => e.2.percentage).sum = 100 :=
  (calculateReportMetrics_sums (ofTable "USD" [("EUR", 0.85)])
    [⟨30, "USD", "food"⟩, ⟨15, "USD", "transport"⟩, ⟨15, "USD", "food"⟩]).2.2.1
    (by
      simp [calculateReportMetrics, convertExpense, convertCurrency, ofTable]
      norm_num)

end ReportsManager

end ExpenseTracker

/-!
# Todo lists with shared objects: what the operations keep true
-/

namespace Calender

namespace Shared

open CalendarApp TodoManager JsDate

set_option linter.unusedVariables false

theorem findIdx_none_all {α : Type} (p : α → Bool) :
    ∀ (l : List α), l.findIdx? p = none → ∀ y ∈ l, p y = false := by
  intro l h y hy
  have := (List.findIdx?_eq_none_iff.mp h) y hy
  simpa using this

theorem findIdx_split {α : Type} (p : α → Bool) :
    ∀ (l : List α) (i : Nat), l.findIdx? p = some i →
      ∃ a r b, l = a ++ r :: b ∧ a.length = i ∧ p r = true ∧ ∀ y ∈ a, p y = false := by
  intro l
  induction l with
  | nil => intro i h; simp at h
  | cons x xs ih =>
    intro i h
    rw [List.findIdx?_cons] at h
    by_cases hx : p x = true
    · simp only [hx, if_true] at h
      refine ⟨[], x, xs, rfl, ?_, hx, ?_⟩
      · simpa using h
      · intro y hy; simp at hy
    · simp only [hx] at h
      rw [List.findIdx?_succ] at h
      cases hrec : xs.findIdx? p with
      | none => rw [hrec] at h; simp at h
      | some j =>
        rw [hrec] at h
        obtain ⟨a, r, b, hl, hlen, hr, ha⟩ := ih j hrec
        refine ⟨x :: a, r, b, by rw [hl]; rfl, ?_, hr, ?_⟩
        · simp at h; simp [hlen]; omega
        · intro y hy
          rcases List.mem_cons.mp hy with rfl | hy
          · simpa using hx
          · exact ha y hy

theorem findIdx_of_split {α : Type} (p : α → Bool) (a : List α) (r : α) (b : List α)
    (hr : p r = true) (ha : ∀ y ∈ a, p y = false) :
    (a ++ r :: b).findIdx? p = some a.length := by
  induction a with
  | nil => simp [List.findIdx?_cons, hr]
  | cons x xs ih =>
    have hx : p x = false := ha x (List.mem_cons_self _ _)
    have := ih (fun y hy => ha y (List.mem_cons_of_mem _ hy))
    simp [List.findIdx?_cons, hx, List.findIdx?_succ, this]

theorem consistent_allShown {app : App} (h : Consistent app) : AllShown app := by
  intro r hr
  have hs := (h.2 (app.heap r).id).subset
  have hm : r ∈ app.filteredTodos.filter fun q => (app.heap q).id = (app.heap r).id := by
    simp [List.mem_filter, hr]
  exact (List.mem_filter.mp (hs hm)).1

theorem consistent_filtered_lt {app : App} (h : Consistent app) :
    ∀ r ∈ app.filteredTodos, r < app.next :=
  fun r hr => h.1 r (consistent_allShown h r hr)

theorem consistent_applyFilters {app : App} (h : Consistent app) :
    Consistent (applyFilters app) := by
  refine ⟨h.1, ?_⟩
  intro x
  exact (List.filter_sublist _).filter _

theorem consistent_same_lists {app : App} (h : Allocated app)
    (hf : app.filteredTodos = app.todos) : Consistent app := by
  refine ⟨h, ?_⟩
  intro x
  rw [hf]

theorem filter_update_next (heap : Ref → Todo) (next : Ref) (t : Todo) (l : List Ref)
    (hl : ∀ r ∈ l, r < next) (f : Todo → Bool) :
    (l.filter fun r => f (Function.update heap next t r)) = l.filter fun r => f (heap r) := by
  apply List.filter_congr
  intro r hr
  have : r ≠ next := Nat.ne_of_lt (hl r hr)
  simp [Function.update_noteq this]

theorem consistent_pushNew {app : App} (todo : Todo) (h : Consistent app) :
    Consistent (pushNew app todo) := by
  refine ⟨?_, ?_⟩
  · intro r hr
    simp only [pushNew, List.mem_append, List.mem_singleton] at hr
    rcases hr with hr | rfl
    · exact Nat.lt_succ_of_lt (h.1 r hr)
    · exact Nat.lt_succ_self _
  · intro x
    simp only [pushNew, List.filter_append]
    rw [filter_update_next app.heap app.next todo app.filteredTodos (consistent_filtered_lt h)
          (fun t => decide (t.id = x)),
        filter_update_next app.heap app.next todo app.todos h.1 (fun t => decide (t.id = x))]
    exact (h.2 x).append (List.Sublist.refl _)

theorem consistent_foldl_pushNew (f : Nat → Todo) :
    ∀ (l : List Nat) (app : App), Consistent app →
      Consistent (l.foldl (fun (a : App) (i : Nat) => pushNew a (f i)) app) := by
  intro l
  induction l with
  | nil => intro app h; exact h
  | cons i l ih => intro app h; exact ih _ (consistent_pushNew _ h)

theorem consistent_createRecurringTodos (tz : TimeZone) (fresh : Nat → Fresh) {app : App}
    (originalTodo : Todo) (h : Consistent app) :
    Consistent (createRecurringTodos tz fresh app originalTodo) :=
  consistent_foldl_pushNew _ _ _ h

theorem consistent_createTodo (tz : TimeZone) (fresh : Nat → Fresh) {app : App}
    (todoData : TodoData) (h : Consistent app) :
    Consistent (createTodo tz fresh app todoData) := by
  unfold createTodo
  simp only
  split
  · exact consistent_createRecurringTodos tz fresh _ (consistent_pushNew _ h)
  · exact consistent_pushNew _ h

theorem consistent_filter_both {app : App} (q : Ref → Bool) (h : Consistent app) :
    Consistent { app with todos := app.todos.filter q,
                          filteredTodos := app.filteredTodos.filter q } := by
  refine ⟨fun r hr => h.1 r (List.mem_filter.mp hr).1, ?_⟩
  intro x
  simp only
  rw [List.filter_comm, List.filter_comm _ _ app.todos]
  exact (h.2 x).filter _

theorem consistent_deleteTodo (confirmed : Bool) {app : App} (todoId : String)
    (h : Consistent app) : Consistent (deleteTodo confirmed app todoId) := by
  unfold deleteTodo
  split
  · exact h
  · exact consistent_filter_both _ h

theorem consistent_deleteAllCompleted (confirmed : Bool) {app : App}
    (h : Consistent app) : Consistent (deleteAllCompleted confirmed app) := by
  unfold deleteAllCompleted
  split
  · exact h
  · simp only
    split
    · exact consistent_filter_both _ h
    · exact consistent_filter_both _ h

theorem update_completed_step (h0 h1 : Ref → Todo)
    (hh : ∀ r, ∃ c u, h1 r = { h0 r with completed := c, updatedAt := u })
    (r0 : Ref) (c0 : Bool) (u0 : String) :
    ∀ r, ∃ c u, Function.update h1 r0 { h1 r0 with completed := c0, updatedAt := u0 } r =
      { h0 r with completed := c, updatedAt := u } := by
  intro r
  obtain ⟨c, u, hcu⟩ := hh r
  by_cases hr : r = r0
  · subst hr
    exact ⟨c0, u0, by rw [Function.update_same, hcu]⟩
  · exact ⟨c, u, by rw [Function.update_noteq hr, hcu]⟩

theorem update_date_step (h0 h1 : Ref → Todo)
    (hh : ∀ r, ∃ d u, h1 r = { h0 r with date := d, updatedAt := u })
    (r0 : Ref) (d0 : Int) (u0 : String) :
    ∀ r, ∃ d u, Function.update h1 r0 { h1 r0 with date := d0, updatedAt := u0 } r =
      { h0 r with date := d, updatedAt := u } := by
  intro r
  obtain ⟨d, u, hdu⟩ := hh r
  by_cases hr : r = r0
  · subst hr
    exact ⟨d0, u0, by rw [Function.update_same, hdu]⟩
  · exact ⟨d, u, by rw [Function.update_noteq hr, hdu]⟩

/-- What `toggleTodoComplete` does to the heap: every object keeps all fields except
`completed` and `updatedAt`. -/
theorem toggleTodoComplete_heap (stamp : String) (app : App) (todoId : String) :
    (toggleTodoComplete stamp app todoId).todos = app.todos ∧
    (toggleTodoComplete stamp app todoId).filteredTodos = app.filteredTodos ∧
    (toggleTodoComplete stamp app todoId).next = app.next ∧
    (toggleTodoComplete stamp app todoId).searchTerm = app.searchTerm ∧
    (toggleTodoComplete stamp app todoId).statusFilter = app.statusFilter ∧
    (toggleTodoComplete stamp app todoId).priorityFilter = app.priorityFilter ∧
    ∀ r, ∃ c u, (toggleTodoComplete stamp app todoId).heap r =
      { app.heap r with completed := c, updatedAt := u } := by
  have h0 : ∀ r, ∃ c u, app.heap r = { app.heap r with completed := c, updatedAt := u } :=
    fun r => ⟨(app.heap r).completed, (app.heap r).updatedAt, rfl⟩
  unfold toggleTodoComplete
  split
  · exact ⟨rfl, rfl, rfl, rfl, rfl, rfl, h0⟩
  · rename_i todo hfind
    refine ⟨rfl, rfl, rfl, rfl, rfl, rfl, ?_⟩
    have h1 := update_completed_step app.heap app.heap h0 todo
      (!(app.heap todo).completed) stamp
    simp only [saveTodos]
    split
    · exact h1
    · exact update_completed_step app.heap _ h1 _ _ _

/-- What `moveTodoToDate` does to the heap: every object keeps all fields except `date`
and `updatedAt`. -/
theorem moveTodoToDate_heap (stamp : String) (app : App) (todoId : String) (newDate : Int) :
    (moveTodoToDate stamp app todoId newDate).todos = app.todos ∧
    (moveTodoToDate stamp app todoId newDate).filteredTodos = app.filteredTodos ∧
    (moveTodoToDate stamp app todoId newDate).next = app.next ∧
    (moveTodoToDate stamp app todoId newDate).searchTerm = app.searchTerm ∧
    (moveTodoToDate stamp app todoId newDate).statusFilter = app.statusFilter ∧
    (moveTodoToDate stamp app todoId newDate).priorityFilter = app.priorityFilter ∧
    ∀ r, ∃ d u, (moveTodoToDate stamp app todoId newDate).heap r =
      { app.heap r with date := d, updatedAt := u } := by
  have h0 : ∀ r, ∃ d u, app.heap r = { app.heap r with date := d, updatedAt := u } :=
    fun r => ⟨(app.heap r).date, (app.heap r).updatedAt, rfl⟩
  unfold moveTodoToDate
  split
  · exact ⟨rfl, rfl, rfl, rfl, rfl, rfl, h0⟩
  · rename_i todo hfind
    refine ⟨rfl, rfl, rfl, rfl, rfl, rfl, ?_⟩
    have h1 := update_date_step app.heap app.heap h0 todo newDate stamp
    simp only [saveTodos]
    split
    · exact h1
    · exact update_date_step app.heap _ h1 _ _ _

theorem consistent_of_same_ids {app app1 : App} (ht : app1.todos = app.todos)
    (hf : app1.filteredTodos = app.filteredTodos) (hn : app1.next = app.next)
    (hid : ∀ r, (app1.heap r).id = (app.heap r).id) (h : Consistent app) :
    Consistent app1 := by
  refine ⟨?_, ?_⟩
  · intro r hr
    rw [ht] at hr
    rw [hn]
    exact h.1 r hr
  · intro x
    rw [ht, hf]
    simpa only [hid] using h.2 x

theorem consistent_toggleTodoComplete (stamp : String) {app : App} (todoId : String)
    (h : Consistent app) : Consistent (toggleTodoComplete stamp app todoId) := by
  obtain ⟨ht, hf, hn, _, _, _, hheap⟩ := toggleTodoComplete_heap stamp app todoId
  refine consistent_of_same_ids ht hf hn ?_ h
  intro r
  obtain ⟨c, u, hcu⟩ := hheap r
  rw [hcu]

theorem consistent_moveTodoToDate (stamp : String) {app : App} (todoId : String)
    (newDate : Int) (h : Consistent app) :
    Consistent (moveTodoToDate stamp app todoId newDate) := by
  obtain ⟨ht, hf, hn, _, _, _, hheap⟩ := moveTodoToDate_heap stamp app todoId newDate
  refine consistent_of_same_ids ht hf hn ?_ h
  intro r
  obtain ⟨d, u, hdu⟩ := hheap r
  rw [hdu]

theorem allocated_pushParsed :
    ∀ (records : List Todo) (app : App), Allocated app →
      Allocated (pushParsed app records) := by
  intro records
  induction records with
  | nil => intro app h; exact h
  | cons t l ih =>
    intro app h
    refine ih _ ?_
    intro r hr
    simp only [List.mem_append, List.mem_singleton] at hr
    rcases hr with hr | rfl
    · exact Nat.lt_succ_of_lt (h r hr)
    · exact Nat.lt_succ_self _

theorem consistent_importTodos {app : App} (file : ImportFile) (h : Consistent app) :
    Consistent (importTodos app file) := by
  unfold importTodos
  split
  · exact consistent_same_lists (allocated_pushParsed _ _ h.1) rfl
  · exact h

theorem consistent_loadTodos (app : App) (stored : Option (List Todo)) :
    Consistent (loadTodos app stored) := by
  refine consistent_same_lists (allocated_pushParsed _ _ ?_) rfl
  intro r hr
  simp at hr

theorem filter_id_update (heap : Ref → Todo) (next : Ref) (t : Todo) (l : List Ref)
    (hl : ∀ r ∈ l, r < next) (x : String) :
    (l.filter fun r => decide ((Function.update heap next t r).id = x)) =
      l.filter fun r => decide ((heap r).id = x) :=
  filter_update_next heap next t l hl (fun t => decide (t.id = x))

theorem filter_id_middle (f : Ref → String) (a b : List Ref) (m : Ref) (x : String) :
    ((a ++ m :: b).filter fun r => decide (f r = x)) =
      (a.filter fun r => decide (f r = x)) ++ (if f m = x then [m] else []) ++
        (b.filter fun r => decide (f r = x)) := by
  rw [List.filter_append, List.filter_cons]
  by_cases h : f m = x <;> simp [h]

theorem set_middle (a b : List Ref) (m n : Ref) : (a ++ m :: b).set a.length n = a ++ n :: b := by
  induction a with
  | nil => rfl
  | cons y ys ih => simp [ih]

theorem sublist_after_update (heap : Ref → Todo) (next : Ref) (todoId : String)
    (updated : Todo) (hu : updated.id = todoId) (a b : List Ref) (old : Ref)
    (ha : ∀ y ∈ a, (heap y).id ≠ todoId) (hold : (heap old).id = todoId)
    (F : List Ref) (hF : ∀ r ∈ F, r < next) (hT : ∀ r ∈ a ++ old :: b, r < next)
    (hsub : ∀ x : String, (F.filter fun r => decide ((heap r).id = x)).Sublist
      ((a ++ old :: b).filter fun r => decide ((heap r).id = x))) (x : String) :
    ((match F.findIdx? (fun r => decide ((Function.update heap next updated r).id = todoId))
        with
      | none => F
      | some j => F.set j next).filter
        fun r => decide ((Function.update heap next updated r).id = x)).Sublist
      ((a ++ next :: b).filter
        fun r => decide ((Function.update heap next updated r).id = x)) := by
  have hA : ∀ r ∈ a, r < next := fun r hr => hT r (by simp [hr])
  have hB : ∀ r ∈ b, r < next := fun r hr => hT r (by simp [hr])
  have hnew : (Function.update heap next updated next).id = todoId := by simp [hu]
  have hold1 : ∀ r, r < next → Function.update heap next updated r = heap r := by
    intro r hr
    exact Function.update_noteq (Nat.ne_of_lt hr) _ _
  have hT1 : ((a ++ next :: b).filter
      fun r => decide ((Function.update heap next updated r).id = x)) =
      (a.filter fun r => decide ((heap r).id = x)) ++ (if todoId = x then [next] else []) ++
        (b.filter fun r => decide ((heap r).id = x)) := by
    rw [filter_id_middle (fun r => (Function.update heap next updated r).id) a b next x,
      filter_id_update heap next updated a hA, filter_id_update heap next updated b hB]
    simp only [hnew]
  have hT0 := filter_id_middle (fun r => (heap r).id) a b old x
  simp only [hold] at hT0
  have hsubx := hsub x
  rw [hT0] at hsubx
  rw [hT1]
  cases hfi : F.findIdx? (fun r => decide ((Function.update heap next updated r).id = todoId))
    with
  | none =>
    simp only
    rw [filter_id_update heap next updated F hF]
    by_cases h : todoId = x
    · have hall := findIdx_none_all _ F hfi
      have hnil : (F.filter fun r => decide ((heap r).id = x)) = [] := by
        rw [List.filter_eq_nil_iff]
        intro r hr
        have := hall r hr
        rw [hold1 r (hF r hr)] at this
        simpa [h] using this
      rw [hnil]
      exact List.nil_sublist _
    · simpa only [h, if_false] using hsubx
  | some j =>
    obtain ⟨c, r2, d, hFeq, hlen, hr2, hc⟩ := findIdx_split _ F j hfi
    subst hFeq
    subst hlen
    simp only
    rw [set_middle]
    have hC : ∀ r ∈ c, r < next := fun r hr => hF r (by simp [hr])
    have hD : ∀ r ∈ d, r < next := fun r hr => hF r (by simp [hr])
    have hr2id : (heap r2).id = todoId := by
      rw [hold1 r2 (hF r2 (by simp))] at hr2
      simpa using hr2
    rw [filter_id_middle (fun r => (Function.update heap next updated r).id) c d next x,
      filter_id_update heap next updated c hC, filter_id_update heap next updated d hD]
    simp only [hnew]
    have hF0 := filter_id_middle (fun r => (heap r).id) c d r2 x
    simp only [hr2id] at hF0
    rw [hF0] at hsubx
    by_cases h : todoId = x
    · have hcnil : (c.filter fun r => decide ((heap r).id = x)) = [] := by
        rw [List.filter_eq_nil_iff]
        intro r hr
        have := hc r hr
        rw [hold1 r (hC r hr)] at this
        simpa [h] using this
      have hanil : (a.filter fun r => decide ((heap r).id = x)) = [] := by
        rw [List.filter_eq_nil_iff]
        intro r hr
        have := ha r hr
        simpa [h] using this
      simp only [h, if_true, hcnil, hanil, List.nil_append, List.singleton_append] at hsubx ⊢
      have htail : (d.filter fun r => decide ((heap r).id = x)).Sublist
          (b.filter fun r => decide ((heap r).id = x)) := by
        cases hsubx with
        | cons _ h1 => exact (List.sublist_cons_self _ _).trans h1
        | cons₂ _ h1 => exact h1
      exact htail.cons₂ _
    · simpa only [h, if_false] using hsubx

theorem get_middle (a b : List Ref) (m : Ref) : (a ++ m :: b).get? a.length = some m := by
  induction a with
  | nil => rfl
  | cons y ys ih => simpa using ih

theorem consistent_updateTodo (stamp : String) {app : App} (todoId : String)
    (todoData : TodoData) (h : Consistent app) :
    Consistent (updateTodo stamp app todoId todoData) := by
  unfold updateTodo
  split
  · exact h
  · rename_i todoIndex hfi
    obtain ⟨a, r, b, hl, hlen, hr, ha⟩ := findIdx_split _ app.todos todoIndex hfi
    subst hlen
    have hget : app.todos.get? a.length = some r := by rw [hl]; exact get_middle a b r
    rw [hget]
    simp only
    have hrid : (app.heap r).id = todoId := by simpa using hr
    have hT : ∀ q ∈ a ++ r :: b, q < app.next := by rw [← hl]; exact h.1
    refine ⟨?_, ?_⟩
    · intro q hq
      simp only [saveTodos, hl, set_middle, List.mem_append, List.mem_cons] at hq
      have hlt : ∀ q ∈ a ++ r :: b, q < app.next + 1 := fun q hq => Nat.lt_succ_of_lt (hT q hq)
      rcases hq with hq | rfl | hq
      · exact hlt q (by simp [hq])
      · exact Nat.lt_succ_self _
      · exact hlt q (by simp [hq])
    · intro x
      simp only [saveTodos, hl, set_middle]
      refine sublist_after_update app.heap app.next todoId
        { app.heap r with
          title := todoData.title, description := todoData.description,
          date := todoData.date, time := todoData.time, priority := todoData.priority,
          category := todoData.category, recurring := todoData.recurring,
          updatedAt := stamp }
        hrid a b r ?_ hrid app.filteredTodos (consistent_filtered_lt h) hT ?_ x
      · intro y hy
        simpa using ha y hy
      · intro x
        rw [← hl]
        exact h.2 x

theorem findIdx_none_of_no_match (app : App) (todoId : String)
    (h : ∀ r ∈ app.todos, (app.heap r).id ≠ todoId) :
    app.todos.findIdx? (fun r => decide ((app.heap r).id = todoId)) = none := by
  rw [List.findIdx?_eq_none_iff]
  intro r hr
  simpa using h r hr

theorem find_none_of_no_match (app : App) (todoId : String)
    (h : ∀ r ∈ app.todos, (app.heap r).id ≠ todoId) :
    app.todos.find? (fun r => decide ((app.heap r).id = todoId)) = none := by
  rw [List.find?_eq_none]
  intro r hr
  simpa using h r hr

theorem updateTodo_no_match (stamp : String) (app : App) (todoId : String)
    (todoData : TodoData) (h : ∀ r ∈ app.todos, (app.heap r).id ≠ todoId) :
    updateTodo stamp app todoId todoData = app := by
  unfold updateTodo
  rw [findIdx_none_of_no_match app todoId h]

theorem toggleTodoComplete_no_match (stamp : String) (app : App) (todoId : String)
    (h : ∀ r ∈ app.todos, (app.heap r).id ≠ todoId) :
    toggleTodoComplete stamp app todoId = app := by
  unfold toggleTodoComplete
  rw [find_none_of_no_match app todoId h]

theorem moveTodoToDate_no_match (stamp : String) (app : App) (todoId : String)
    (newDate : Int) (h : ∀ r ∈ app.todos, (app.heap r).id ≠ todoId) :
    moveTodoToDate stamp app todoId newDate = app := by
  unfold moveTodoToDate
  rw [find_none_of_no_match app todoId h]

theorem matchesFilters_of_noFilter {app : App} (hn : NoFilter app) (todo : Todo) :
    matchesFilters app.searchTerm app.statusFilter app.priorityFilter todo = true := by
  obtain ⟨h1, h2, h3⟩ := hn
  unfold matchesFilters
  rcases h2 with h2 | h2 <;> rcases h3 with h3 | h3 <;> simp [h1, h2, h3]

theorem filtered_iff_of_noFilter {app : App} (hn : NoFilter app) :
    Filtered app ↔ app.filteredTodos = app.todos := by
  unfold Filtered
  have : (app.todos.filter fun r =>
      matchesFilters app.searchTerm app.statusFilter app.priorityFilter (app.heap r)) =
      app.todos := by
    rw [List.filter_eq_self]
    intro r _
    exact matchesFilters_of_noFilter hn _
  rw [this]

theorem filtered_applyFilters (app : App) : Filtered (applyFilters app) := rfl

theorem filtered_filter_both {app : App} (q : Ref → Bool) (h : Filtered app) :
    Filtered { app with todos := app.todos.filter q,
                        filteredTodos := app.filteredTodos.filter q } := by
  unfold Filtered at h ⊢
  simp only
  rw [h, List.filter_comm]

theorem filtered_deleteTodo (confirmed : Bool) {app : App} (todoId : String)
    (h : Filtered app) : Filtered (deleteTodo confirmed app todoId) := by
  unfold deleteTodo
  split
  · exact h
  · exact filtered_filter_both _ h

theorem filtered_deleteAllCompleted (confirmed : Bool) {app : App} (h : Filtered app) :
    Filtered (deleteAllCompleted confirmed app) := by
  unfold deleteAllCompleted
  split
  · exact h
  · simp only
    split
    · exact filtered_filter_both _ h
    · exact filtered_filter_both _ h

theorem filtered_moveTodoToDate (stamp : String) {app : App} (todoId : String)
    (newDate : Int) (h : Filtered app) :
    Filtered (moveTodoToDate stamp app todoId newDate) := by
  obtain ⟨ht, hf, _, hs, hst, hp, hheap⟩ := moveTodoToDate_heap stamp app todoId newDate
  unfold Filtered at h ⊢
  rw [ht, hf, hs, hst, hp, h]
  apply List.filter_congr
  intro r _
  obtain ⟨d, u, hdu⟩ := hheap r
  rw [hdu]
  rfl

theorem unfiltered_pushNew {app : App} (todo : Todo)
    (h : NoFilter app ∧ app.filteredTodos = app.todos) :
    NoFilter (pushNew app todo) ∧ (pushNew app todo).filteredTodos = (pushNew app todo).todos := by
  refine ⟨h.1, ?_⟩
  simp only [pushNew, h.2]

theorem unfiltered_foldl_pushNew (f : Nat → Todo) :
    ∀ (l : List Nat) (app : App), NoFilter app ∧ app.filteredTodos = app.todos →
      NoFilter (l.foldl (fun (a : App) (i : Nat) => pushNew a (f i)) app) ∧
      (l.foldl (fun (a : App) (i : Nat) => pushNew a (f i)) app).filteredTodos =
        (l.foldl (fun (a : App) (i : Nat) => pushNew a (f i)) app).todos := by
  intro l
  induction l with
  | nil => intro app h; exact h
  | cons i l ih => intro app h; exact ih _ (unfiltered_pushNew _ h)

theorem unfiltered_createRecurringTodos (tz : TimeZone) (fresh : Nat → Fresh) {app : App}
    (originalTodo : Todo) (h : NoFilter app ∧ app.filteredTodos = app.todos) :
    NoFilter (createRecurringTodos tz fresh app originalTodo) ∧
    (createRecurringTodos tz fresh app originalTodo).filteredTodos =
      (createRecurringTodos tz fresh app originalTodo).todos :=
  unfiltered_foldl_pushNew _ _ _ h

theorem unfiltered_createTodo (tz : TimeZone) (fresh : Nat → Fresh) {app : App}
    (todoData : TodoData) (h : NoFilter app ∧ app.filteredTodos = app.todos) :
    NoFilter (createTodo tz fresh app todoData) ∧
    (createTodo tz fresh app todoData).filteredTodos =
      (createTodo tz fresh app todoData).todos := by
  have key : ∀ t, NoFilter (saveTodos (pushNew app t)) ∧
      (saveTodos (pushNew app t)).filteredTodos = (saveTodos (pushNew app t)).todos :=
    fun t => unfiltered_pushNew t h
  unfold createTodo
  simp only
  split
  · exact unfiltered_createRecurringTodos tz fresh _ (key _)
  · exact key _

theorem unfiltered_updateTodo (stamp : String) {app : App} (todoId : String)
    (todoData : TodoData) (ha : Allocated app)
    (h : NoFilter app ∧ app.filteredTodos = app.todos) :
    NoFilter (updateTodo stamp app todoId todoData) ∧
    (updateTodo stamp app todoId todoData).filteredTodos =
      (updateTodo stamp app todoId todoData).todos := by
  unfold updateTodo
  split
  · exact h
  · rename_i todoIndex hfi
    obtain ⟨a, r, b, hl, hlen, hr, hna⟩ := findIdx_split _ app.todos todoIndex hfi
    subst hlen
    have hget : app.todos.get? a.length = some r := by rw [hl]; exact get_middle a b r
    rw [hget]
    simp only
    refine ⟨h.1, ?_⟩
    have hT : ∀ q ∈ a ++ r :: b, q < app.next := by rw [← hl]; exact ha
    have hold1 : ∀ (t : Todo) (q : Ref), q < app.next →
        Function.update app.heap app.next t q = app.heap q := by
      intro t q hq
      exact Function.update_noteq (Nat.ne_of_lt hq) _ _
    simp only [saveTodos, h.2, hl]
    rw [findIdx_of_split _ a r b]
    · rw [hold1 _ r (hT r (by simp))]
      exact hr
    · intro y hy
      rw [hold1 _ y (hT y (by simp [hy]))]
      exact hna y hy

theorem unfiltered_toggleTodoComplete (stamp : String) {app : App} (todoId : String)
    (h : NoFilter app ∧ app.filteredTodos = app.todos) :
    NoFilter (toggleTodoComplete stamp app todoId) ∧
    (toggleTodoComplete stamp app todoId).filteredTodos =
      (toggleTodoComplete stamp app todoId).todos := by
  obtain ⟨ht, hf, _, hs, hst, hp, _⟩ := toggleTodoComplete_heap stamp app todoId
  unfold NoFilter
  rw [ht, hf, hs, hst, hp]
  exact h

theorem pushParsed_filters :
    ∀ (records : List Todo) (app : App),
      (pushParsed app records).searchTerm = app.searchTerm ∧
      (pushParsed app records).statusFilter = app.statusFilter ∧
      (pushParsed app records).priorityFilter = app.priorityFilter := by
  intro records
  induction records with
  | nil => intro app; exact ⟨rfl, rfl, rfl⟩
  | cons t l ih => intro app; exact ih _

theorem unfiltered_importTodos {app : App} (file : ImportFile)
    (h : NoFilter app ∧ app.filteredTodos = app.todos) :
    NoFilter (importTodos app file) ∧
    (importTodos app file).filteredTodos = (importTodos app file).todos := by
  unfold importTodos
  split
  · rename_i imported
    refine ⟨?_, rfl⟩
    obtain ⟨hs, hst, hp⟩ := pushParsed_filters
      (imported.filter fun t => !((app.todos.map fun r => (app.heap r).id).contains t.id)) app
    unfold NoFilter
    simp only [saveTodos]
    rw [hs, hst, hp]
    exact h.1
  · exact h

/-- C28, where the claim fails. With the status filter set to `completed` and no todos,
`filteredTodos` is the filtered list (both are empty). `createTodo` pushes the new,
uncompleted todo onto both lists: afterwards `filteredTodos` holds it, while filtering
`todos` with the current filters gives the empty list. -/
theorem createTodo_skips_filters :
    Filtered showingCompleted ∧
    (createTodo (TimeZone.fixed 0) numbered showingCompleted rentData).todos = [0] ∧
    (createTodo (TimeZone.fixed 0) numbered showingCompleted rentData).filteredTodos = [0] ∧
    (applyFilters
      (createTodo (TimeZone.fixed 0) numbered showingCompleted rentData)).filteredTodos = [] ∧
    ¬ Filtered (createTodo (TimeZone.fixed 0) numbered showingCompleted rentData) := by
  refine ⟨rfl, rfl, rfl, ?_, ?_⟩
  · decide
  · unfold Filtered
    decide

/-- C28, amended. `applyFilters` makes `filteredTodos` exactly the todos that pass the
current filters, in order. `deleteTodo`, `moveTodoToDate` and `deleteAllCompleted`
preserve that under any filters. `createTodo`, `createRecurringTodos`, `updateTodo`,
`toggleTodoComplete` and `importTodos` do not filter again; they preserve it when no
filter is active (for `updateTodo`, on a state whose references are allocated). -/
theorem filteredTodos_is_filtered_list (tz : TimeZone) (fresh : Nat → Fresh)
    (stamp : String) :
    (∀ app, Filtered (applyFilters app)) ∧
    (∀ app, Filtered app →
      (∀ confirmed todoId, Filtered (deleteTodo confirmed app todoId)) ∧
      (∀ todoId newDate, Filtered (moveTodoToDate stamp app todoId newDate)) ∧
      (∀ confirmed, Filtered (deleteAllCompleted confirmed app))) ∧
    (∀ app, NoFilter app → Filtered app →
      (∀ todoData, Filtered (createTodo tz fresh app todoData)) ∧
      (∀ originalTodo, Filtered (createRecurringTodos tz fresh app originalTodo)) ∧
      (Allocated app → ∀ todoId todoData, Filtered (updateTodo stamp app todoId todoData)) ∧
      (∀ todoId, Filtered (toggleTodoComplete stamp app todoId)) ∧
      (∀ file, Filtered (importTodos app file))) := by
  refine ⟨filtered_applyFilters, ?_, ?_⟩
  · intro app h
    exact ⟨fun c id => filtered_deleteTodo c id h,
      fun id d => filtered_moveTodoToDate stamp id d h,
      fun c => filtered_deleteAllCompleted c h⟩
  · intro app hn h
    have hf : NoFilter app ∧ app.filteredTodos = app.todos :=
      ⟨hn, (filtered_iff_of_noFilter hn).mp h⟩
    have back : ∀ a : App, NoFilter a ∧ a.filteredTodos = a.todos → Filtered a :=
      fun a ha => (filtered_iff_of_noFilter ha.1).mpr ha.2
    exact ⟨fun d => back _ (unfiltered_createTodo tz fresh d hf),
      fun o => back _ (unfiltered_createRecurringTodos tz fresh o hf),
      fun ha id d => back _ (unfiltered_updateTodo stamp id d ha hf),
      fun id => back _ (unfiltered_toggleTodoComplete stamp id hf),
      fun file => back _ (unfiltered_importTodos file hf)⟩

/-- Witness for C28: with no filter set and no todos, `createTodo` leaves `filteredTodos`
equal to the filtered list, and so does `updateTodo` after it. -/
theorem filteredTodos_is_filtered_list_witness :
    NoFilter App.empty ∧ Filtered App.empty ∧ Allocated App.empty ∧
    Filtered (createTodo (TimeZone.fixed 0) numbered App.empty rentData) ∧
    Filtered (updateTodo "2024-01-02T09:00:00.000Z" App.empty "t0" rentData) ∧
    Filtered (deleteTodo true App.empty "t0") :=
  ⟨⟨rfl, Or.inl rfl, Or.inl rfl⟩, rfl, fun r hr => by simp [App.empty] at hr,
    ((filteredTodos_is_filtered_list (TimeZone.fixed 0) numbered
      "2024-01-02T09:00:00.000Z").2.2 App.empty ⟨rfl, Or.inl rfl, Or.inl rfl⟩ rfl).1 rentData,
    ((filteredTodos_is_filtered_list (TimeZone.fixed 0) numbered
      "2024-01-02T09:00:00.000Z").2.2 App.empty ⟨rfl, Or.inl rfl, Or.inl rfl⟩ rfl).2.2.1
      (fun r hr => by simp [App.empty] at hr) "t0" rentData,
    (((filteredTodos_is_filtered_list (TimeZone.fixed 0) numbered
      "2024-01-02T09:00:00.000Z").2.1 App.empty rfl).1 true "t0")⟩

/-- Whatever is stored under `calender_todos`, `loadTodos` leaves in `filteredTodos` exactly
the items that spreading `todos` yields. -/
theorem loadTodos_items (stored : StoredItem) :
    ∃ items, spread (CalendarApp.loadTodos stored).1 = Except.ok items ∧
      (CalendarApp.loadTodos stored).2 = Json.arr items := by
  cases stored with
  | absent => exact ⟨[], rfl, rfl⟩
  | emptyText => exact ⟨[], rfl, rfl⟩
  | text parsed =>
    cases parsed with
    | none => exact ⟨[], rfl, rfl⟩
    | some v =>
      cases v with
      | null => exact ⟨[], rfl, rfl⟩
      | bool b => exact ⟨[], rfl, rfl⟩
      | num n => exact ⟨[], rfl, rfl⟩
      | str s => exact ⟨_, rfl, rfl⟩
      | arr items => exact ⟨items, rfl, rfl⟩
      | obj fields => exact ⟨[], rfl, rfl⟩

/-- C29. The two lists stay consistent: `Consistent` holds in the constructor's state and
after `loadTodos` from any state, and `applyFilters`, `createTodo`,
`createRecurringTodos`, `updateTodo`, `deleteTodo`, `toggleTodoComplete`,
`moveTodoToDate`, `importTodos` and `deleteAllCompleted` each preserve it. In a consistent
state every reference in `filteredTodos` is in `todos`, and so every record of
`filteredTodos` is a record of `todos`. When no todo has the given id, `updateTodo`,
`toggleTodoComplete` and `moveTodoToDate` return the state unchanged. For any stored
value at all, `loadTodos` leaves in `filteredTodos` the items of `todos`. -/
theorem filteredTodos_within_todos (tz : TimeZone) (fresh : Nat → Fresh) (stamp : String) :
    Consistent App.empty ∧
    (∀ stored : StoredItem, ∃ items,
      spread (CalendarApp.loadTodos stored).1 = Except.ok items ∧
      (CalendarApp.loadTodos stored).2 = Json.arr items) ∧
    (∀ app stored, Consistent (loadTodos app stored)) ∧
    (∀ app, Consistent app →
      Consistent (applyFilters app) ∧
      (∀ todoData, Consistent (createTodo tz fresh app todoData)) ∧
      (∀ originalTodo, Consistent (createRecurringTodos tz fresh app originalTodo)) ∧
      (∀ todoId todoData, Consistent (updateTodo stamp app todoId todoData)) ∧
      (∀ confirmed todoId, Consistent (deleteTodo confirmed app todoId)) ∧
      (∀ todoId, Consistent (toggleTodoComplete stamp app todoId)) ∧
      (∀ todoId newDate, Consistent (moveTodoToDate stamp app todoId newDate)) ∧
      (∀ file, Consistent (importTodos app file)) ∧
      (∀ confirmed, Consistent (deleteAllCompleted confirmed app))) ∧
    (∀ app, Consistent app →
      AllShown app ∧ ∀ t ∈ app.filteredTodos.map app.heap, t ∈ app.todos.map app.heap) ∧
    (∀ app todoId, (∀ r ∈ app.todos, (app.heap r).id ≠ todoId) →
      (∀ todoData, updateTodo stamp app todoId todoData = app) ∧
      toggleTodoComplete stamp app todoId = app ∧
      ∀ newDate, moveTodoToDate stamp app todoId newDate = app) := by
  refine ⟨?_, loadTodos_items, consistent_loadTodos, ?_, ?_, ?_⟩
  · exact consistent_same_lists (fun r hr => by simp [App.empty] at hr) rfl
  · intro app h
    exact ⟨consistent_applyFilters h,
      fun d => consistent_createTodo tz fresh d h,
      fun o => consistent_createRecurringTodos tz fresh o h,
      fun id d => consistent_updateTodo stamp id d h,
      fun c id => consistent_deleteTodo c id h,
      fun id => consistent_toggleTodoComplete stamp id h,
      fun id d => consistent_moveTodoToDate stamp id d h,
      fun file => consistent_importTodos file h,
      fun c => consistent_deleteAllCompleted c h⟩
  · intro app h
    refine ⟨consistent_allShown h, ?_⟩
    intro t ht
    obtain ⟨r, hr, rfl⟩ := List.mem_map.mp ht
    exact List.mem_map.mpr ⟨r, consistent_allShown h r hr, rfl⟩
  · intro app todoId h
    exact ⟨fun d => updateTodo_no_match stamp app todoId d h,
      toggleTodoComplete_no_match stamp app todoId h,
      fun d => moveTodoToDate_no_match stamp app todoId d h⟩

/-- Witness for C29: after `loadTodos` of the stored example todo and a `createTodo`, the
state is consistent and every reference in `filteredTodos` is in `todos`; no todo has the
id `zz`, and `toggleTodoComplete` with it changes nothing. -/
theorem filteredTodos_within_todos_witness :
    Consistent (loadTodos App.empty (some [weeklyTodo])) ∧
    Consistent
      (createTodo (TimeZone.fixed 0) numbered (loadTodos App.empty (some [weeklyTodo]))
        rentData) ∧
    AllShown
      (createTodo (TimeZone.fixed 0) numbered (loadTodos App.empty (some [weeklyTodo]))
        rentData) ∧
    (∀ r ∈ (loadTodos App.empty (some [weeklyTodo])).todos,
      ((loadTodos App.empty (some [weeklyTodo])).heap r).id ≠ "zz") ∧
    toggleTodoComplete "2024-01-02T09:00:00.000Z" (loadTodos App.empty (some [weeklyTodo]))
      "zz" = loadTodos App.empty (some [weeklyTodo]) :=
  have h := filteredTodos_within_todos (TimeZone.fixed 0) numbered "2024-01-02T09:00:00.000Z"
  have h0 := h.2.2.1 App.empty (some [weeklyTodo])
  have h1 := (h.2.2.2.1 _ h0).2.1 rentData
  have hno : ∀ r ∈ (loadTodos App.empty (some [weeklyTodo])).todos,
      ((loadTodos App.empty (some [weeklyTodo])).heap r).id ≠ "zz" := by
    intro r hr
    have hr0 : r = 0 := by simpa [loadTodos, pushParsed, App.empty] using hr
    subst hr0
    decide
  ⟨h0, h1, (h.2.2.2.2.1 _ h1).1, hno, (h.2.2.2.2.2 _ "zz" hno).2.1⟩

end Shared

end Calender
